import Mathlib

/-! # Order store, order cache and error taxonomy of the l0 service

A shallow embedding of `internal/repository/db/postgres/postgres.go`,
`internal/repository/repository.go`, `internal/service/service.go` and
`pkg/er/er.go`.

* Go `error` values are modelled by `GoError`; a nil error is `none`.
* The relational engine is an external collaborator.  It is modelled as four
  tables held as lists in insertion order, three identifier sequences, the
  order identifiers held by transactions left open, and a fault plan telling
  which engine calls fail for reasons outside the program.
* The code is sequential here: locks are not modelled.
-/

namespace L0

/-! ## Errors -/

/-- Error values that are compared by identity: the four domain errors of
`pkg/er/er.go` and the driver and context sentinels the code tests for. -/
inductive Sentinel where
  | ErrOrderNotFound
  | ErrOrderExists
  | ErrInvalidData
  | ErrDatabaseError
  | ErrNoRows
  | Canceled
  | DeadlineExceeded
  deriving DecidableEq, Repr

/-- The text of a sentinel, as given to `errors.New`. -/
def Sentinel.text : Sentinel → String
  | .ErrOrderNotFound => "order not found"
  | .ErrOrderExists => "order already exists"
  | .ErrInvalidData => "invalid data"
  | .ErrDatabaseError => "database error"
  | .ErrNoRows => "no rows in result set"
  | .Canceled => "context canceled"
  | .DeadlineExceeded => "context deadline exceeded"

/-- A non-nil Go error: a sentinel, an engine error carrying an SQLSTATE code
(`*pgconn.PgError`), any other leaf error, or `fmt.Errorf` with one `%w`
operand (text before, wrapped error, text after). -/
inductive GoError where
  | sentinel (s : Sentinel)
  | pgError (code : String) (message : String)
  | other (text : String)
  | wrapf (pre : String) (inner : GoError) (post : String)
  deriving DecidableEq, Repr

namespace GoError

/-- The method `Error()`. -/
def Error : GoError → String
  | sentinel s => s.text
  | pgError code message => "ERROR: " ++ message ++ " (SQLSTATE " ++ code ++ ")"
  | other text => text
  | wrapf pre inner post => pre ++ inner.Error ++ post

/-- The function `errors.Is(err, target)` for a sentinel target. -/
def Is : GoError → Sentinel → Bool
  | sentinel s, t => decide (s = t)
  | pgError _ _, _ => false
  | other _, _ => false
  | wrapf _ inner _, t => inner.Is t

/-- The function `errors.As(err, &pgerr)`: the SQLSTATE code and message of the
first engine error on the chain. -/
def AsPg : GoError → Option (String × String)
  | sentinel _ => none
  | pgError code message => some (code, message)
  | other _ => none
  | wrapf _ inner _ => inner.AsPg

end GoError

/-- The call `fmt.Errorf(pre + "%w" + post, err)`; a nil operand yields an
error that wraps nothing. -/
def errorfW (pre : String) (err : Option GoError) (post : String) : GoError :=
  match err with
  | some e => .wrapf pre e post
  | none => .other (pre ++ "%!w(<nil>)" ++ post)

/-- The function `checkPostgresError` on a non-nil error. -/
def checkPostgresErrorSome (err : GoError) : GoError :=
  if err.Is .ErrNoRows then
    .sentinel .ErrOrderNotFound
  else
    match err.AsPg with
    | some (code, message) =>
      if code = "23505" then
        .wrapf "" (.sentinel .ErrOrderExists) ": violation of uniqueness"
      else if code = "23503" then
        .wrapf "" (.sentinel .ErrInvalidData) ": foreign key violation"
      else if code = "23502" then
        .wrapf "" (.sentinel .ErrInvalidData) ": required field not filled"
      else if code = "23514" then
        .wrapf "" (.sentinel .ErrInvalidData) ": check constraint violation"
      else if code = "42P01" then
        .wrapf "" (.sentinel .ErrDatabaseError) ": table does not exist"
      else if code = "42703" then
        .wrapf "" (.sentinel .ErrDatabaseError) ": column does not exist"
      else if code = "22001" then
        .wrapf "" (.sentinel .ErrInvalidData) ": string data too long"
      else if code = "22003" then
        .wrapf "" (.sentinel .ErrInvalidData) ": numeric value out of range"
      else if code = "22008" then
        .wrapf "" (.sentinel .ErrInvalidData) ": datetime field overflow"
      else
        .wrapf "" (.sentinel .ErrDatabaseError) (": " ++ message)
    | none => .wrapf "" (.sentinel .ErrDatabaseError) (": " ++ err.Error)

/-- The function `checkPostgresError`. -/
def checkPostgresError (err : Option GoError) : Option GoError :=
  match err with
  | none => none
  | some e => some (checkPostgresErrorSome e)

/-- The four domain errors of `pkg/er/er.go`. -/
def domainErrors : List Sentinel :=
  [.ErrOrderNotFound, .ErrOrderExists, .ErrInvalidData, .ErrDatabaseError]

/-- The domain errors that a possibly nil error wraps. -/
def domainKinds (err : Option GoError) : List Sentinel :=
  match err with
  | none => []
  | some e => domainErrors.filter (fun k => e.Is k)

/-- A table from storage errors to domain errors in the words of the
specification: no matching row is not-found, code 23505 is already-exists, the
codes listed in `invalid` are invalid-data, and every other engine code and
every non-engine error is a storage error. -/
def kindTable (invalid : List String) (e : GoError) : Sentinel :=
  if e.Is .ErrNoRows then .ErrOrderNotFound
  else
    match e.AsPg with
    | some (code, _) =>
      if code = "23505" then .ErrOrderExists
      else if code ∈ invalid then .ErrInvalidData
      else .ErrDatabaseError
    | none => .ErrDatabaseError

/-- The table as the specification states it: foreign-key, not-null,
check-constraint, string-too-long and numeric-overflow are invalid data. -/
def statedKind (e : GoError) : Sentinel :=
  kindTable ["23503", "23502", "23514", "22001", "22003"] e

/-- The stated table with 22008 (datetime field overflow) added to the
invalid-data codes. -/
def amendedKind (e : GoError) : Sentinel :=
  kindTable ["23503", "23502", "23514", "22001", "22003", "22008"] e

/-! ## Data model

The package `internal/models` is reconstructed from the fields that
`postgres.go`, `service.go` and `cmd/l0/producer/producer.go` read and write.
Go `int` is `Int`, a slice is a `List` (a nil slice and an empty slice are the
same list), and `time.Time` is an instant counted from the epoch. -/

/-- A `time.Time` value. -/
structure Time where
  unixNano : Int
  deriving DecidableEq, Repr, Inhabited

/-- The instant cut down to whole microseconds, the resolution of a
`timestamp` column: the driver encodes a `time.Time` as a count of
microseconds, dropping the nanoseconds below. -/
def Time.truncMicro (t : Time) : Time := ⟨t.unixNano / 1000 * 1000⟩

/-- The struct `models.Delivery`. -/
structure Delivery where
  Name : String
  Phone : String
  Zip : String
  City : String
  Address : String
  Region : String
  Email : String
  deriving DecidableEq, Repr, Inhabited

/-- The struct `models.Payment`. -/
structure Payment where
  Transaction : String
  RequestID : String
  Currency : String
  Provider : String
  Amount : Int
  PaymentDt : Int
  Bank : String
  DeliveryCost : Int
  GoodsTotal : Int
  CustomFee : Int
  deriving DecidableEq, Repr, Inhabited

/-- The struct `models.Item`. -/
structure Item where
  ChrtID : Int
  TrackNumber : String
  Price : Int
  Rid : String
  Name : String
  Sale : Int
  Size : String
  TotalPrice : Int
  NmID : Int
  Brand : String
  Status : Int
  deriving DecidableEq, Repr, Inhabited

/-- The struct `models.Order`. -/
structure Order where
  OrderUID : String
  TrackNumber : String
  Entry : String
  Delivery : Delivery
  Payment : Payment
  Items : List Item
  Locale : String
  InternalSignature : String
  CustomerID : String
  DeliveryService : String
  Shardkey : String
  SmID : Int
  DateCreated : Time
  OofShard : String
  deriving DecidableEq, Repr, Inhabited

/-- Required fields of an item (specification, section 3). -/
def Item.Valid (i : Item) : Prop := i.Name ≠ "" ∧ 0 < i.Price

/-- Required fields of an order (specification, section 3). -/
def Order.Valid (o : Order) : Prop :=
  o.OrderUID ≠ "" ∧ o.Delivery.Name ≠ "" ∧ o.Delivery.Phone ≠ "" ∧
  o.Payment.Transaction ≠ "" ∧ o.Payment.Provider ≠ "" ∧ 0 < o.Payment.Amount ∧
  ∀ i ∈ o.Items, i.Valid

instance (i : Item) : Decidable i.Valid := by unfold Item.Valid; infer_instance

instance (o : Order) : Decidable o.Valid := by unfold Order.Valid; infer_instance

/-! ## The storage engine

Modelled from the statements the code sends.  A table is the list of its rows
in insertion order, and a `SELECT` without `ORDER BY` scans it in that order.
Column values are stored and returned unchanged, except that the `timestamp`
column `date_created` keeps whole microseconds.  A transaction that the
program neither commits nor rolls back stays open: its rows are not visible,
and it holds the `order_uid` of the `orders` rows it inserted.  A call that
waits on such a row returns only when its context ends; the model gives the
outcome of the call at that point. -/

/-- A row of table `orders`, in the column order of the `INSERT`. -/
structure OrderRow where
  order_uid : String
  track_number : String
  entry : String
  delivery_id : Int
  payment_id : Int
  locale : String
  internal_signature : String
  customer_id : String
  delivery_service : String
  shardkey : String
  sm_id : Int
  date_created : Time
  oof_shard : String
  deriving DecidableEq, Repr, Inhabited

/-- A row of table `item`: generated id, the eleven item columns, `order_uid`. -/
structure ItemRow where
  id : Int
  item : Item
  order_uid : String
  deriving DecidableEq, Repr, Inhabited

/-- The four tables. -/
structure Tables where
  delivery : List (Int × Delivery)
  payment : List (Int × Payment)
  orders : List OrderRow
  item : List ItemRow
  deriving DecidableEq, Repr, Inhabited

/-- Last value handed out by the id sequence of `delivery`, `payment`, `item`
(`RETURNING id`).  Sequences are not transactional. -/
structure Seqs where
  delivery : Nat
  payment : Nat
  item : Nat
  deriving DecidableEq, Repr, Inhabited

/-- The store: committed rows, sequences, and the order identifiers of
`orders` rows inserted by transactions that were left open (neither committed
nor rolled back).  Such a row is not visible to a query, but an insert of the
same `order_uid` waits for the transaction that holds it. -/
structure DB where
  tables : Tables
  seqs : Seqs
  held : List String
  deriving DecidableEq, Repr, Inhabited

/-- The empty store. -/
def DB.empty : DB := ⟨⟨[], [], [], []⟩, ⟨0, 0, 0⟩, []⟩

/-- Calls that the store code makes to the engine. -/
inductive Call where
  | begin
  | insertDelivery
  | insertPayment
  | insertOrder
  | insertItem (i : Nat)
  | commit
  | rollback
  | selectOrder (uid : String)
  | selectDelivery (id : Int)
  | selectPayment (id : Int)
  | queryItems (uid : String)
  | scanItem (uid : String) (i : Nat)
  | iterItems (uid : String)
  | queryOrders
  | scanOrder (i : Nat)
  | iterOrders
  deriving DecidableEq, Repr

/-- A fault plan: the error a call returns when it fails for a reason that the
store does not record (lost connection, engine-side rejection, no free
connection in the pool). -/
abbrev Faults := Call → Option GoError

/-- The engine never fails on its own. -/
def noFaults : Faults := fun _ => none

/-- Modelled from the spec: the relational schema is not among the sources;
the order identifier is globally unique, so inserting a second `orders` row
with the same `order_uid` is refused with SQLSTATE 23505. -/
def uniqueViolation : GoError :=
  .pgError "23505" "duplicate key value violates unique constraint"

/-- With `order_uid` unique, an insert of an identifier that an open
transaction has inserted waits for that transaction.  The wait ends with the
context of the call, and the driver returns the error of the context. -/
def lockWait : GoError := .sentinel .DeadlineExceeded

/-- State of an open transaction: the rows it sees, the sequences, the
engine calls made so far, and the order identifiers held by other open
transactions. -/
structure TxState where
  work : Tables
  seqs : Seqs
  trace : List Call
  held : List String
  deriving DecidableEq, Repr

/-- A Go return `(zero, err)`, where `err` may turn out nil. -/
def retErr {α : Type} (zero : α) (err : Option GoError) : Except GoError α :=
  match err with
  | some e => .error e
  | none => .ok zero

/-! ## The store: `postgres.go` -/

namespace Postgres

/-- Records an engine call on the trace of the transaction. -/
def note (st : TxState) (c : Call) : TxState :=
  { st with trace := st.trace ++ [c] }

/-- The method `createDeliveryTx`: validation, then `INSERT ... RETURNING id`. -/
def createDeliveryTx (f : Faults) (st : TxState) (d : Delivery) :
    Except GoError Int × TxState :=
  if d.Name = "" then
    (.error (.wrapf "" (.sentinel .ErrInvalidData) ": recipient name is required"), st)
  else if d.Phone = "" then
    (.error (.wrapf "" (.sentinel .ErrInvalidData) ": recipient phone is required"), st)
  else
    let st1 := note st .insertDelivery
    match f .insertDelivery with
    | some e => (retErr 0 (checkPostgresError (some e)), st1)
    | none =>
      let id : Int := (st1.seqs.delivery + 1 : Nat)
      (.ok id,
        { st1 with
          work := { st1.work with delivery := st1.work.delivery ++ [(id, d)] }
          seqs := { st1.seqs with delivery := st1.seqs.delivery + 1 } })

/-- The method `createPaymentTx`: validation, then `INSERT ... RETURNING id`. -/
def createPaymentTx (f : Faults) (st : TxState) (pay : Payment) :
    Except GoError Int × TxState :=
  if pay.Transaction = "" then
    (.error (.wrapf "" (.sentinel .ErrInvalidData) ": transaction number is required"), st)
  else if pay.Provider = "" then
    (.error (.wrapf "" (.sentinel .ErrInvalidData) ": payment provider is required"), st)
  else if pay.Amount ≤ 0 then
    (.error (.wrapf "" (.sentinel .ErrInvalidData)
      ": payment amount must be greater than zero"), st)
  else
    let st1 := note st .insertPayment
    match f .insertPayment with
    | some e => (retErr 0 (checkPostgresError (some e)), st1)
    | none =>
      let id : Int := (st1.seqs.payment + 1 : Nat)
      (.ok id,
        { st1 with
          work := { st1.work with payment := st1.work.payment ++ [(id, pay)] }
          seqs := { st1.seqs with payment := st1.seqs.payment + 1 } })

/-- The method `createItemTx` for the item at position `i` of the order:
validation, then `INSERT ... RETURNING id`. -/
def createItemTx (f : Faults) (st : TxState) (item : Item) (orderUID : String) (i : Nat) :
    Except GoError Int × TxState :=
  if item.Name = "" then
    (.error (.wrapf "" (.sentinel .ErrInvalidData) ": item name is required"), st)
  else if item.Price ≤ 0 then
    (.error (.wrapf "" (.sentinel .ErrInvalidData)
      ": item price must be greater than zero"), st)
  else if orderUID = "" then
    (.error (.wrapf "" (.sentinel .ErrInvalidData) ": item order_uid is required"), st)
  else
    let st1 := note st (.insertItem i)
    match f (.insertItem i) with
    | some e => (retErr 0 (checkPostgresError (some e)), st1)
    | none =>
      let id : Int := (st1.seqs.item + 1 : Nat)
      (.ok id,
        { st1 with
          work := { st1.work with item := st1.work.item ++ [⟨id, item, orderUID⟩] }
          seqs := { st1.seqs with item := st1.seqs.item + 1 } })

/-- The row that `CreateOrder` inserts into `orders`.  The column
`date_created` is a `timestamp`: the value kept is `order.DateCreated` in
whole microseconds. -/
def orderRow (order : Order) (deliveryID paymentID : Int) : OrderRow :=
  { order_uid := order.OrderUID
    track_number := order.TrackNumber
    entry := order.Entry
    delivery_id := deliveryID
    payment_id := paymentID
    locale := order.Locale
    internal_signature := order.InternalSignature
    customer_id := order.CustomerID
    delivery_service := order.DeliveryService
    shardkey := order.Shardkey
    sm_id := order.SmID
    date_created := order.DateCreated.truncMicro
    oof_shard := order.OofShard }

/-- The call `tx.Exec` of the `INSERT INTO orders`: refused with 23505 when a
row with the same `order_uid` exists; when an open transaction holds a row
with the same `order_uid`, the statement waits for it and ends with the error
of the context. -/
def execInsertOrder (f : Faults) (st : TxState) (row : OrderRow) :
    Option GoError × TxState :=
  let st1 := note st .insertOrder
  match f .insertOrder with
  | some e => (some e, st1)
  | none =>
    if st1.work.orders.any (fun r => decide (r.order_uid = row.order_uid)) then
      (some uniqueViolation, st1)
    else if row.order_uid ∈ st1.held then
      (some lockWait, st1)
    else
      (none, { st1 with work := { st1.work with orders := st1.work.orders ++ [row] } })

/-- The loop `for i, item := range order.Items` of `CreateOrder`, from position
`i` on: the error it returns with, if any. -/
def createItems (f : Faults) (orderUID : String) :
    List Item → Nat → TxState → Option GoError × TxState
  | [], _, st => (none, st)
  | item :: rest, i, st =>
    match createItemTx f st item orderUID i with
    | (.error e, st1) =>
      (some (errorfW ("item " ++ toString (i + 1) ++ " creation error: ")
        (checkPostgresError (some e)) ""), st1)
    | (.ok _, st1) => createItems f orderUID rest (i + 1) st1

/-- What the body of `CreateOrder` leaves when it returns: the returned error,
the value of the function-level variable `err` that the deferred function
reads, the transaction state, and whether the commit took effect. -/
structure BodyResult where
  ret : Option GoError
  errVar : Option GoError
  st : TxState
  committed : Bool
  deriving DecidableEq, Repr

/-- The body of `CreateOrder` after `Begin` succeeded.  In the item loop
`_, err := p.createItemTx(...)` declares a new `err` in the scope of the loop
body, so the function-level `err` keeps the nil of the preceding `tx.Exec`. -/
def createOrderBody (f : Faults) (st0 : TxState) (order : Order) : BodyResult :=
  match createDeliveryTx f st0 order.Delivery with
  | (.error e, st1) =>
    ⟨some (errorfW "delivery creation error: " (checkPostgresError (some e)) ""),
      some e, st1, false⟩
  | (.ok deliveryID, st1) =>
    match createPaymentTx f st1 order.Payment with
    | (.error e, st2) =>
      ⟨some (errorfW "payment creation error: " (checkPostgresError (some e)) ""),
        some e, st2, false⟩
    | (.ok paymentID, st2) =>
      match execInsertOrder f st2 (orderRow order deliveryID paymentID) with
      | (some e, st3) =>
        ⟨some (errorfW "order creation error: " (checkPostgresError (some e)) ""),
          some e, st3, false⟩
      | (none, st3) =>
        match createItems f order.OrderUID order.Items 0 st3 with
        | (some r, st4) => ⟨some r, none, st4, false⟩
        | (none, st4) =>
          let st5 := note st4 .commit
          match f .commit with
          | some e =>
            ⟨some (errorfW "failed to commit transaction: " (checkPostgresError (some e)) ""),
              some e, st5, false⟩
          | none => ⟨none, none, st5, true⟩

/-- Outcome of `CreateOrder`: the returned error, the store afterwards, and
the engine calls made, in order. -/
structure CreateResult where
  err : Option GoError
  db : DB
  trace : List Call
  deriving DecidableEq, Repr

/-- The method `CreateOrder`.  The deferred function calls `tx.Rollback` when
the function-level `err` is not nil.  Rows become committed only by a commit
that succeeds.  A transaction that is neither committed nor rolled back stays
open and goes on holding the `orders` rows it inserted. -/
def CreateOrder (f : Faults) (db : DB) (order : Order) : CreateResult :=
  if order.OrderUID = "" then
    ⟨some (.wrapf "" (.sentinel .ErrInvalidData) ": order_uid cannot be empty"), db, []⟩
  else
    match f .begin with
    | some e =>
      ⟨some (errorfW "failed to begin transaction: " (checkPostgresError (some e)) ""),
        db, [.begin]⟩
    | none =>
      let r := createOrderBody f ⟨db.tables, db.seqs, [.begin], db.held⟩ order
      let st := if r.errVar.isSome then note r.st .rollback else r.st
      ⟨r.ret,
        ⟨if r.committed then st.work else db.tables, st.seqs,
          if r.committed || r.errVar.isSome then db.held
          else db.held ++
            (st.work.orders.drop db.tables.orders.length).map (fun row => row.order_uid)⟩,
        st.trace⟩

/-- The call `QueryRow(...).Scan(...)` on `orders` by `order_uid`. -/
def queryRowOrder (f : Faults) (t : Tables) (orderUID : String) : Except GoError OrderRow :=
  match f (.selectOrder orderUID) with
  | some e => .error e
  | none =>
    match t.orders.find? (fun r => decide (r.order_uid = orderUID)) with
    | some r => .ok r
    | none => .error (.sentinel .ErrNoRows)

/-- The method `getDelivery`. -/
def getDelivery (f : Faults) (t : Tables) (id : Int) : Except GoError Delivery :=
  if id ≤ 0 then
    .error (.wrapf "" (.sentinel .ErrInvalidData) ": invalid delivery ID")
  else
    match f (.selectDelivery id) with
    | some e => retErr default (checkPostgresError (some e))
    | none =>
      match t.delivery.find? (fun r => decide (r.1 = id)) with
      | some r => .ok r.2
      | none => retErr default (checkPostgresError (some (.sentinel .ErrNoRows)))

/-- The method `getPayment`. -/
def getPayment (f : Faults) (t : Tables) (id : Int) : Except GoError Payment :=
  if id ≤ 0 then
    .error (.wrapf "" (.sentinel .ErrInvalidData) ": invalid payment ID")
  else
    match f (.selectPayment id) with
    | some e => retErr default (checkPostgresError (some e))
    | none =>
      match t.payment.find? (fun r => decide (r.1 = id)) with
      | some r => .ok r.2
      | none => retErr default (checkPostgresError (some (.sentinel .ErrNoRows)))

/-- The loop `for rows.Next()` of `getItemsByOrderUID` over the selected rows,
from position `i` on, appending to `items`. -/
def scanItems (f : Faults) (orderUID : String) :
    List ItemRow → Nat → List Item → Except GoError (List Item)
  | [], _, items => .ok items
  | r :: rest, i, items =>
    match f (.scanItem orderUID i) with
    | some e => .error (errorfW "item scanning error: " (checkPostgresError (some e)) "")
    | none => scanItems f orderUID rest (i + 1) (items ++ [r.item])

/-- The method `getItemsByOrderUID`. -/
def getItemsByOrderUID (f : Faults) (t : Tables) (orderUID : String) :
    Except GoError (List Item) :=
  if orderUID = "" then
    .error (.wrapf "" (.sentinel .ErrInvalidData) ": order_uid cannot be empty")
  else
    match f (.queryItems orderUID) with
    | some e => .error (errorfW "item query error: " (checkPostgresError (some e)) "")
    | none =>
      match scanItems f orderUID
          (t.item.filter (fun r => decide (r.order_uid = orderUID))) 0 [] with
      | .error e => .error e
      | .ok items =>
        match f (.iterItems orderUID) with
        | some e => .error (errorfW "item iteration error: " (checkPostgresError (some e)) "")
        | none => .ok items

/-- The order assembled from a scanned `orders` row and its parts. -/
def assemble (row : OrderRow) (d : Delivery) (pay : Payment) (items : List Item) : Order :=
  { OrderUID := row.order_uid
    TrackNumber := row.track_number
    Entry := row.entry
    Delivery := d
    Payment := pay
    Items := items
    Locale := row.locale
    InternalSignature := row.internal_signature
    CustomerID := row.customer_id
    DeliveryService := row.delivery_service
    Shardkey := row.shardkey
    SmID := row.sm_id
    DateCreated := row.date_created
    OofShard := row.oof_shard }

/-- The method `GetOrder`, reading committed rows.  The Go function returns
`(order, err)`; the order is meaningful only when `err` is nil. -/
def GetOrder (f : Faults) (db : DB) (orderUID : String) : Except GoError Order :=
  if orderUID = "" then
    .error (.wrapf "" (.sentinel .ErrInvalidData) ": order_uid cannot be empty")
  else
    match queryRowOrder f db.tables orderUID with
    | .error e => .error (errorfW "order retrieval error: " (checkPostgresError (some e)) "")
    | .ok row =>
      match getDelivery f db.tables row.delivery_id with
      | .error e =>
        .error (errorfW "delivery data retrieval error: " (checkPostgresError (some e)) "")
      | .ok d =>
        match getPayment f db.tables row.payment_id with
        | .error e =>
          .error (errorfW "payment data retrieval error: " (checkPostgresError (some e)) "")
        | .ok pay =>
          match getItemsByOrderUID f db.tables orderUID with
          | .error e =>
            .error (errorfW "order items retrieval error: " (checkPostgresError (some e)) "")
          | .ok items => .ok (assemble row d pay items)

/-- The loop `for rows.Next()` of `GetOrders` over the rows of `orders`, from
position `i` on, appending to `orders`. -/
def scanOrders (f : Faults) (t : Tables) :
    List OrderRow → Nat → List Order → Except GoError (List Order)
  | [], _, orders => .ok orders
  | row :: rest, i, orders =>
    match f (.scanOrder i) with
    | some e => .error (errorfW "order scanning error: " (checkPostgresError (some e)) "")
    | none =>
      match getDelivery f t row.delivery_id with
      | .error e =>
        .error (errorfW ("delivery data retrieval error for order " ++ row.order_uid ++ ": ")
          (checkPostgresError (some e)) "")
      | .ok d =>
        match getPayment f t row.payment_id with
        | .error e =>
          .error (errorfW ("payment data retrieval error for order " ++ row.order_uid ++ ": ")
            (checkPostgresError (some e)) "")
        | .ok pay =>
          match getItemsByOrderUID f t row.order_uid with
          | .error e =>
            .error (errorfW ("items retrieval error for order " ++ row.order_uid ++ ": ")
              (checkPostgresError (some e)) "")
          | .ok items => scanOrders f t rest (i + 1) (orders ++ [assemble row d pay items])

/-- The method `GetOrders`. -/
def GetOrders (f : Faults) (db : DB) : Except GoError (List Order) :=
  match f .queryOrders with
  | some e => .error (errorfW "order query error: " (checkPostgresError (some e)) "")
  | none =>
    match scanOrders f db.tables db.tables.orders 0 [] with
    | .error e => .error e
    | .ok orders =>
      match f .iterOrders with
      | some e => .error (errorfW "order iteration error: " (checkPostgresError (some e)) "")
      | none => .ok orders

end Postgres

/-- Constraints that the schema and the sequences maintain: generated ids do
not exceed the last sequence value, every item row refers to an `orders` row,
and `order_uid` is a key of `orders`. -/
def DB.WF (db : DB) : Prop :=
  (∀ r ∈ db.tables.delivery, r.1 ≤ (db.seqs.delivery : Int)) ∧
  (∀ r ∈ db.tables.payment, r.1 ≤ (db.seqs.payment : Int)) ∧
  (∀ r ∈ db.tables.item, ∃ o ∈ db.tables.orders, o.order_uid = r.order_uid) ∧
  (db.tables.orders.map (fun r => r.order_uid)).Nodup

instance (db : DB) : Decidable db.WF := by unfold DB.WF; infer_instance

/-- An `orders` row with this identifier is committed. -/
def DB.hasOrder (db : DB) (orderUID : String) : Prop :=
  ∃ r ∈ db.tables.orders, r.order_uid = orderUID

instance (db : DB) (orderUID : String) : Decidable (db.hasOrder orderUID) := by
  unfold DB.hasOrder; infer_instance

/-! ## The repository: `repository.go` -/

namespace Repository

/-- The method `Repository.GetOrder`. -/
def GetOrder (f : Faults) (db : DB) (orderUID : String) : Except GoError Order :=
  Postgres.GetOrder f db orderUID

/-- The method `Repository.CreateOrder`. -/
def CreateOrder (f : Faults) (db : DB) (order : Order) : Postgres.CreateResult :=
  Postgres.CreateOrder f db order

/-- The method `Repository.GetAllOrders`. -/
def GetAllOrders (f : Faults) (db : DB) : Except GoError (List Order) :=
  Postgres.GetOrders f db

end Repository

/-! ## The service and its cache: `service.go` -/

/-- The map `cache map[string]*models.Order`, as a list of entries with at
most one entry per key once built by `cachePut`. -/
abbrev Cache := List (String × Order)

/-- The lookup `order, ok := s.cache[orderUID]`. -/
def cacheGet (c : Cache) (orderUID : String) : Option Order :=
  (c.find? (fun e => decide (e.1 = orderUID))).map (fun e => e.2)

/-- The assignment `s.cache[orderUID] = order`. -/
def cachePut (c : Cache) (orderUID : String) (order : Order) : Cache :=
  (orderUID, order) :: c.filter (fun e => !decide (e.1 = orderUID))

/-- Calls that the service makes to the repository. -/
inductive RepoCall where
  | GetAllOrders
  | GetOrder (orderUID : String)
  | CreateOrder (orderUID : String)
  deriving DecidableEq, Repr

/-- The struct `Service`: the store behind the repository, and the cache. -/
structure Service where
  repo : DB
  cache : Cache
  deriving DecidableEq, Repr

namespace Service

/-- Outcome of a service call: the returned error, the service afterwards, and
the repository calls made. -/
structure Effect where
  err : Option GoError
  svc : Service
  calls : List RepoCall
  deriving DecidableEq, Repr

/-- Outcome of `Service.GetOrder`: the returned pair `(order, err)`, the
service afterwards, and the repository calls made. -/
structure GetEffect where
  order : Option Order
  err : Option GoError
  svc : Service
  calls : List RepoCall
  deriving DecidableEq, Repr

/-- The method `RestoreCache`. -/
def RestoreCache (f : Faults) (s : Service) : Effect :=
  match Repository.GetAllOrders f s.repo with
  | .error e => ⟨some e, s, [.GetAllOrders]⟩
  | .ok orders =>
    ⟨none, { s with cache := orders.foldl (fun c o => cachePut c o.OrderUID o) s.cache },
      [.GetAllOrders]⟩

/-- The function `NewService`: `(nil, err)` when warming fails. -/
def NewService (f : Faults) (repo : DB) : Except GoError Service :=
  match (RestoreCache f ⟨repo, []⟩).err with
  | some e => .error e
  | none => .ok (RestoreCache f ⟨repo, []⟩).svc

/-- The method `Service.GetOrder`. -/
def GetOrder (f : Faults) (s : Service) (orderUID : String) : GetEffect :=
  match cacheGet s.cache orderUID with
  | some order => ⟨some order, none, s, []⟩
  | none =>
    match Repository.GetOrder f s.repo orderUID with
    | .error e => ⟨none, some e, s, [.GetOrder orderUID]⟩
    | .ok orderDB =>
      ⟨some orderDB, none, { s with cache := cachePut s.cache orderUID orderDB },
        [.GetOrder orderUID]⟩

/-- The method `Service.CreateOrder`. -/
def CreateOrder (f : Faults) (s : Service) (order : Order) : Effect :=
  let r := Repository.CreateOrder f s.repo order
  match r.err with
  | some e => ⟨some e, { s with repo := r.db }, [.CreateOrder order.OrderUID]⟩
  | none =>
    ⟨none, ⟨r.db, cachePut s.cache order.OrderUID order⟩, [.CreateOrder order.OrderUID]⟩

end Service

/-! ## Sample data -/

/-- A delivery with its required fields filled. -/
def sampleDelivery : Delivery :=
  { Name := "Test Testov", Phone := "+9720000000", Zip := "2639809", City := "Kiryat Mozkin",
    Address := "Ploshad Mira 15", Region := "Kraiot", Email := "test@gmail.com" }

/-- A payment with its required fields filled. -/
def samplePayment : Payment :=
  { Transaction := "b563feb7b2b84b6test1", RequestID := "", Currency := "USD",
    Provider := "wbpay", Amount := 500, PaymentDt := 1637907727, Bank := "alpha",
    DeliveryCost := 1500, GoodsTotal := 317, CustomFee := 0 }

/-- An item with its required fields filled. -/
def sampleItem : Item :=
  { ChrtID := 9934930, TrackNumber := "WBILMTESTTRACK", Price := 100, Rid := "ab4219087a764ae0btest",
    Name := "Mascaras", Sale := 30, Size := "0", TotalPrice := 317, NmID := 2389212,
    Brand := "Vivienne Sabo", Status := 202 }

/-- A valid order with two items. -/
def sampleOrder : Order :=
  { OrderUID := "order-1", TrackNumber := "WBILMTESTTRACK", Entry := "WBIL",
    Delivery := sampleDelivery, Payment := samplePayment,
    Items := [sampleItem, { sampleItem with Name := "Brush", Price := 50 }],
    Locale := "en", InternalSignature := "", CustomerID := "test", DeliveryService := "meest",
    Shardkey := "9", SmID := 99, DateCreated := ⟨1637907727000000000⟩, OofShard := "1" }

/-! ## The service as a state machine -/

namespace Service

/-- One call on the service, with the fault plan of the engine during it. -/
inductive Op where
  | RestoreCache (f : Faults)
  | GetOrder (f : Faults) (orderUID : String)
  | CreateOrder (f : Faults) (order : Order)

/-- The service after one call. -/
def step (s : Service) : Op → Service
  | .RestoreCache f => (RestoreCache f s).svc
  | .GetOrder f orderUID => (GetOrder f s orderUID).svc
  | .CreateOrder f order => (CreateOrder f s order).svc

/-- The service after a sequence of calls. -/
def run (s : Service) (ops : List Op) : Service :=
  ops.foldl step s

/-- Every identifier in the cache has a committed `orders` row. -/
def cacheBacked (s : Service) : Prop :=
  ∀ e ∈ s.cache, s.repo.hasOrder e.1

instance (s : Service) : Decidable s.cacheBacked := by
  unfold cacheBacked; infer_instance

end Service

/-! ## The user-safe view: `convertToOrderResponse`

The response structs of `internal/models` are reconstructed from the fields
that `convertToOrderResponse` fills. -/

/-- The struct `models.PaymentResponse`. -/
structure PaymentResponse where
  Currency : String
  Provider : String
  Amount : Int
  PaymentDt : Int
  Bank : String
  DeliveryCost : Int
  GoodsTotal : Int
  CustomFee : Int
  deriving DecidableEq, Repr, Inhabited

/-- The struct `models.ItemResponse`. -/
structure ItemResponse where
  TrackNumber : String
  Price : Int
  Name : String
  Sale : Int
  Size : String
  TotalPrice : Int
  Brand : String
  deriving DecidableEq, Repr, Inhabited

/-- The struct `models.OrderResponse`. -/
structure OrderResponse where
  OrderUID : String
  TrackNumber : String
  Delivery : Delivery
  Payment : PaymentResponse
  Items : List ItemResponse
  Locale : String
  DeliveryService : String
  DateCreated : Time
  deriving DecidableEq, Repr, Inhabited

namespace Service

/-- The method `convertToOrderResponse`: the loop fills position `i` of the
response items from position `i` of the order items. -/
def convertToOrderResponse (order : Order) : OrderResponse :=
  { OrderUID := order.OrderUID
    TrackNumber := order.TrackNumber
    Delivery := order.Delivery
    Payment :=
      { Currency := order.Payment.Currency
        Provider := order.Payment.Provider
        Amount := order.Payment.Amount
        PaymentDt := order.Payment.PaymentDt
        Bank := order.Payment.Bank
        DeliveryCost := order.Payment.DeliveryCost
        GoodsTotal := order.Payment.GoodsTotal
        CustomFee := order.Payment.CustomFee }
    Items := order.Items.map (fun item =>
      { TrackNumber := item.TrackNumber
        Price := item.Price
        Name := item.Name
        Sale := item.Sale
        Size := item.Size
        TotalPrice := item.TotalPrice
        Brand := item.Brand })
    Locale := order.Locale
    DeliveryService := order.DeliveryService
    DateCreated := order.DateCreated }

/-- Outcome of `GetOrderResponse`: the returned pair `(response, err)`, the
service afterwards, and the repository calls made. -/
structure ResponseEffect where
  response : Option OrderResponse
  err : Option GoError
  svc : Service
  calls : List RepoCall
  deriving DecidableEq, Repr

/-- The method `GetOrderResponse`. -/
def GetOrderResponse (f : Faults) (s : Service) (orderUID : String) : ResponseEffect :=
  match (GetOrder f s orderUID).err, (GetOrder f s orderUID).order with
  | some err, _ => ⟨none, some err, (GetOrder f s orderUID).svc, (GetOrder f s orderUID).calls⟩
  | none, some order =>
    ⟨some (convertToOrderResponse order), none, (GetOrder f s orderUID).svc,
      (GetOrder f s orderUID).calls⟩
  | none, none => ⟨none, none, (GetOrder f s orderUID).svc, (GetOrder f s orderUID).calls⟩

end Service

/-! ## The read endpoint: `handler.go` -/

/-- The struct `Response` of the REST handler. -/
structure Response where
  Status : String
  Msg : String
  Data : Option OrderResponse
  deriving DecidableEq, Repr

namespace Handler

/-- The handler `GetOrder`: the status code and the body it writes, given what
`h.svc.GetOrderResponse` returns for an identifier.  The codes are
`http.StatusBadRequest`, `http.StatusNotFound`, `http.StatusInternalServerError`
and `http.StatusOK`. -/
def GetOrder (getOrderResponse : String → Except GoError OrderResponse) (orderUID : String) :
    Nat × Response :=
  if orderUID = "" then
    (400, ⟨"error", "order_uid is required", none⟩)
  else
    match getOrderResponse orderUID with
    | .error err =>
      if err.Is .ErrOrderNotFound then
        (404, ⟨"error", "order not found", none⟩)
      else
        (500, ⟨"error", "internal server error", none⟩)
    | .ok order => (200, ⟨"ok", "", some order⟩)

end Handler

/-! ## Start-up: `cmd/l0/server/server.go` -/

/-- How the start-up part of `main` ends: the process exits (`Fatalf`), it
panics, or the consumer goroutine and the HTTP server are started with the
service pointer at hand (`none` is the nil pointer). -/
inductive Startup where
  | fatal (text : String)
  | panicked (err : GoError)
  | started (svc : Option Service)
  deriving DecidableEq, Repr

/-- The function `NewConsumer`: it always returns a nil error. -/
def NewConsumer : Option GoError := none

/-- The function `main` up to the start of the consumer goroutine and of the
HTTP server, given what `config.NewConfig` and `repository.NewRepository`
return and the fault plan of the engine while the cache is warmed.  A failed
`NewService` is logged with `Errorf`, which does not stop the process. -/
def main (cfg : Option GoError) (repo : Except GoError DB) (f : Faults) : Startup :=
  match cfg with
  | some err => .fatal ("failed to initialize config: " ++ err.Error)
  | none =>
    match repo with
    | .error err => .panicked err
    | .ok db =>
      let svc : Option Service :=
        match Service.NewService f db with
        | .error _ => none
        | .ok s => some s
      match NewConsumer with
      | some err => .fatal ("failed to create kafka consumer: " ++ err.Error)
      | none => .started svc

/-! ## The message source: `consumer.go`

The reader and the context are the environment.  A script lists, per turn of
a loop, what the environment does: the context is done, or the next
`ReadMessage` returns a message or an error.  `json.Unmarshal` is a parameter. -/

/-- What `ctx.Err()` returns once the context is done. -/
inductive Cause where
  | canceled
  | deadlineExceeded
  deriving DecidableEq, Repr

/-- The error value of a cause: `context.Canceled` or
`context.DeadlineExceeded`. -/
def Cause.err : Cause → GoError
  | .canceled => .sentinel .Canceled
  | .deadlineExceeded => .sentinel .DeadlineExceeded

/-- One turn of the environment. -/
inductive Tick where
  | ctxDone (cause : Cause)
  | message (value : String)
  | failure (err : GoError)
  deriving DecidableEq, Repr

/-- How a consume loop stands when the script ends: still looping, returned
with an error value, or panicked. -/
inductive Exit where
  | running
  | returned (err : Option GoError)
  | panicked
  deriving DecidableEq, Repr

namespace Consumer

/-- Outcome of `ConsumeOrders`: how the loop ended and the orders the handler
was invoked with, in order of invocation. -/
structure ConsumeResult where
  exit : Exit
  handled : List Order
  deriving DecidableEq, Repr

/-- The method `ConsumeOrders`.  The error of the handler is only logged. -/
def ConsumeOrders (unmarshal : String → Except GoError Order) (handler : Order → Option GoError) :
    List Tick → ConsumeResult
  | [] => ⟨.running, []⟩
  | .ctxDone cause :: _ => ⟨.returned (some cause.err), []⟩
  | .failure err :: rest =>
    if err.Is .DeadlineExceeded then
      ConsumeOrders unmarshal handler rest
    else if err.Is .Canceled then
      ⟨.returned (some err), []⟩
    else
      ConsumeOrders unmarshal handler rest
  | .message value :: rest =>
    match unmarshal value with
    | .error _ => ConsumeOrders unmarshal handler rest
    | .ok order =>
      match handler order with
      | some _ =>
        ⟨(ConsumeOrders unmarshal handler rest).exit,
          order :: (ConsumeOrders unmarshal handler rest).handled⟩
      | none =>
        ⟨(ConsumeOrders unmarshal handler rest).exit,
          order :: (ConsumeOrders unmarshal handler rest).handled⟩

/-- Outcome of `ConsumeOrdersBatch`: how the loop ended, the batches the
handler was invoked with, in order of invocation, and the orders of a batch
still being filled when the script ended. -/
structure BatchResult where
  exit : Exit
  batches : List (List Order)
  pending : List Order
  deriving DecidableEq, Repr

/-- The two loop heads of `ConsumeOrdersBatch`: `none` is the head of the outer
loop, `some orders` the head of `for len(orders) < batchSize` with the orders
gathered so far.  In the inner loop a done context makes the short read fail
at once and stays done for the outer loop.  `make` panics on a negative
capacity.  The error of the handler is only logged. -/
def batchLoop (unmarshal : String → Except GoError Order)
    (handler : List Order → Option GoError) (batchSize : Int) :
    List Tick → Option (List Order) → BatchResult
  | [], none => ⟨.running, [], []⟩
  | .ctxDone cause :: _, none => ⟨.returned (some cause.err), [], []⟩
  | .failure err :: rest, none =>
    if err = .sentinel .DeadlineExceeded then
      batchLoop unmarshal handler batchSize rest none
    else if err = .sentinel .Canceled then
      ⟨.returned (some err), [], []⟩
    else
      batchLoop unmarshal handler batchSize rest none
  | .message value :: rest, none =>
    if batchSize < 0 then
      ⟨.panicked, [], []⟩
    else
      match unmarshal value with
      | .error _ => batchLoop unmarshal handler batchSize rest none
      | .ok order => batchLoop unmarshal handler batchSize rest (some [order])
  | ticks, some orders =>
    if (orders.length : Int) < batchSize then
      match ticks with
      | [] => ⟨.running, [], orders⟩
      | .ctxDone cause :: rest =>
        ⟨(batchLoop unmarshal handler batchSize (.ctxDone cause :: rest) none).exit,
          orders :: (batchLoop unmarshal handler batchSize (.ctxDone cause :: rest) none).batches,
          (batchLoop unmarshal handler batchSize (.ctxDone cause :: rest) none).pending⟩
      | .failure _ :: rest =>
        ⟨(batchLoop unmarshal handler batchSize rest none).exit,
          orders :: (batchLoop unmarshal handler batchSize rest none).batches,
          (batchLoop unmarshal handler batchSize rest none).pending⟩
      | .message value :: rest =>
        match unmarshal value with
        | .error _ => batchLoop unmarshal handler batchSize rest (some orders)
        | .ok order => batchLoop unmarshal handler batchSize rest (some (orders ++ [order]))
    else
      ⟨(batchLoop unmarshal handler batchSize ticks none).exit,
        orders :: (batchLoop unmarshal handler batchSize ticks none).batches,
        (batchLoop unmarshal handler batchSize ticks none).pending⟩
termination_by ticks pending => (ticks.length, if pending.isSome then 1 else 0)

/-- The method `ConsumeOrdersBatch`. -/
def ConsumeOrdersBatch (unmarshal : String → Except GoError Order)
    (handler : List Order → Option GoError) (batchSize : Int) (ticks : List Tick) :
    BatchResult :=
  batchLoop unmarshal handler batchSize ticks none

end Consumer

/-! ## Reading the scripts -/

/-- A turn at which `ConsumeOrders` observes cancellation: the context is done,
or the read fails with an error that wraps `context.Canceled`. -/
def Tick.cancels : Tick → Bool
  | .ctxDone _ => true
  | .failure err => err.Is .Canceled
  | .message _ => false

/-- A turn at which a read returns a message. -/
def Tick.isMessage : Tick → Bool
  | .message _ => true
  | _ => false

/-- The order that a turn delivers: the turn is a message whose payload
deserializes. -/
def Tick.order (unmarshal : String → Except GoError Order) : Tick → Option Order
  | .message value =>
    match unmarshal value with
    | .ok order => some order
    | .error _ => none
  | _ => none

/-- The orders that the turns of a script deliver, in stream order. -/
def delivered (unmarshal : String → Except GoError Order) (ticks : List Tick) : List Order :=
  ticks.filterMap (Tick.order unmarshal)

/-- One batch over a script, in the words of the specification: the order of
one blocking read that delivers, followed by the orders that the consecutive
successful short reads after it deliver, in stream order; the batch is closed
as soon as it holds `batchSize` orders, or else by the next short read
failing. -/
def Consumer.IsBatch (unmarshal : String → Except GoError Order) (batchSize : Int)
    (ticks : List Tick) (b : List Order) : Prop :=
  ∃ (pre : List Tick) (value : String) (order : Order) (shorts post : List Tick),
    ticks = pre ++ (.message value :: (shorts ++ post)) ∧
    unmarshal value = .ok order ∧
    (∀ t ∈ shorts, t.isMessage = true) ∧
    b = order :: delivered unmarshal shorts ∧
    (((b.length : Int) = batchSize ∧
        ∀ (init : List Tick) (t : Tick), shorts = init ++ [t] → (t.order unmarshal).isSome = true) ∨
      ((b.length : Int) < batchSize ∧
        ∃ (t : Tick) (rest : List Tick), post = t :: rest ∧ t.isMessage = false))

/-- A sample decoder: the payload `bad` does not deserialize, any other payload
is the sample order with the payload as its identifier. -/
def sampleUnmarshal (value : String) : Except GoError Order :=
  if value = "bad" then .error (.other "invalid character")
  else .ok { sampleOrder with OrderUID := value }

/-- A fault plan under which the query of `GetOrders` fails. -/
def warmFault : Faults :=
  fun c => if c = .queryOrders then some (.other "connection refused") else none

/-- The sample order with every field that the user-safe view leaves out
changed. -/
def sampleOrderHidden : Order :=
  { OrderUID := "order-1", TrackNumber := "WBILMTESTTRACK", Entry := "ZZZZ",
    Delivery := sampleDelivery,
    Payment := { samplePayment with Transaction := "tx-2", RequestID := "req-2" },
    Items := [{ sampleItem with ChrtID := 1, Rid := "rid-2", NmID := 2, Status := 404 },
      { sampleItem with Name := "Brush", Price := 50, ChrtID := 3, Rid := "rid-3", Status := 500 }],
    Locale := "en", InternalSignature := "sig", CustomerID := "other", DeliveryService := "meest",
    Shardkey := "1", SmID := 7, DateCreated := ⟨1637907727000000000⟩, OofShard := "2" }

/-! ## The error taxonomy -/

/-- The result of `checkPostgresError` on a non-nil error wraps a domain error
exactly when the amended table names it. -/
theorem Is_checkPostgresErrorSome (e : GoError) (k : Sentinel) :
    (checkPostgresErrorSome e).Is k = decide (amendedKind e = k) := by
  unfold checkPostgresErrorSome amendedKind kindTable
  by_cases h : e.Is .ErrNoRows = true
  · simp [h, GoError.Is]
  · simp only [h]
    cases hp : e.AsPg with
    | none => simp [GoError.Is]
    | some cm =>
      obtain ⟨code, message⟩ := cm
      by_cases h1 : code = "23505"
      · subst h1; simp [GoError.Is]
      by_cases h2 : code = "23503"
      · subst h2; simp [GoError.Is]
      by_cases h3 : code = "23502"
      · subst h3; simp [GoError.Is]
      by_cases h4 : code = "23514"
      · subst h4; simp [GoError.Is]
      by_cases h5 : code = "42P01"
      · subst h5; simp [GoError.Is]
      by_cases h6 : code = "42703"
      · subst h6; simp [GoError.Is]
      by_cases h7 : code = "22001"
      · subst h7; simp [GoError.Is]
      by_cases h8 : code = "22003"
      · subst h8; simp [GoError.Is]
      by_cases h9 : code = "22008"
      · subst h9; simp [GoError.Is]
      simp [h1, h2, h3, h4, h5, h6, h7, h8, h9, GoError.Is]

/-- The amended table only names domain errors. -/
theorem amendedKind_mem (e : GoError) : amendedKind e ∈ domainErrors := by
  unfold amendedKind kindTable domainErrors
  split
  · simp
  · split
    · split
      · simp
      · split <;> simp
    · simp

/-- C7, amended: `checkPostgresError` maps nil to nil and every non-nil storage
error to an error that wraps exactly one of the four domain errors, the one
that the stated table names once 22008 (datetime field overflow) is counted
with the invalid-data codes. -/
theorem checkPostgresError_kinds :
    checkPostgresError none = none ∧
    ∀ e : GoError, ∃ r, checkPostgresError (some e) = some r ∧
      domainKinds (some r) = [amendedKind e] := by
  refine ⟨rfl, fun e => ⟨checkPostgresErrorSome e, rfl, ?_⟩⟩
  have h := amendedKind_mem e
  simp only [domainKinds, domainErrors, List.filter, Is_checkPostgresErrorSome]
  simp only [domainErrors, List.mem_cons, List.mem_singleton, List.not_mem_nil, or_false] at h
  rcases h with h | h | h | h <;> simp [h]

/-- C7 as stated fails at engine code 22008: the stated table sends it, as any
other engine code, to the storage error, and `checkPostgresError` returns an
error that wraps invalid-data only. -/
theorem checkPostgresError_22008 :
    statedKind (.pgError "22008" "datetime field overflow") = .ErrDatabaseError ∧
    domainKinds (checkPostgresError (some (.pgError "22008" "datetime field overflow"))) =
      [.ErrInvalidData] := by
  decide

/-! ## The store -/

/-- An instant that is a whole number of microseconds is stored as it is. -/
theorem Time.truncMicro_of_whole (t : Time) (h : t.unixNano % 1000 = 0) :
    t.truncMicro = t := by
  cases t with
  | mk n =>
    simp only [Time.truncMicro]
    congr 1
    exact Int.ediv_mul_cancel (Int.dvd_of_emod_eq_zero h)

/-- Cutting to whole microseconds never moves an instant forward, and moves
it back by less than a microsecond. -/
theorem Time.truncMicro_le (t : Time) :
    t.truncMicro.unixNano ≤ t.unixNano ∧ t.unixNano < t.truncMicro.unixNano + 1000 := by
  simp only [Time.truncMicro]
  omega

namespace Postgres

/-- One item insert: it fails leaving the transaction as it was or with the
call noted, or the item is valid and its row is appended under a new id. -/
theorem createItemTx_spec (f : Faults) (st : TxState) (item : Item) (uid : String) (i : Nat) :
    (∃ e, (createItemTx f st item uid i).1 = .error e ∧
      ((createItemTx f st item uid i).2 = st ∨
        (createItemTx f st item uid i).2 = note st (.insertItem i))) ∨
    (item.Valid ∧ uid ≠ "" ∧ f (.insertItem i) = none ∧
      ∃ st1 : TxState, createItemTx f st item uid i = (.ok ((st.seqs.item + 1 : Nat) : Int), st1) ∧
        st1.work = { st.work with
          item := st.work.item ++ [⟨((st.seqs.item + 1 : Nat) : Int), item, uid⟩] } ∧
        st1.seqs = { st.seqs with item := st.seqs.item + 1 } ∧
        st1.trace = st.trace ++ [.insertItem i]) := by
  unfold createItemTx
  by_cases h1 : item.Name = ""
  · simp [h1]
  by_cases h2 : item.Price ≤ 0
  · simp [h1, h2]
  by_cases h3 : uid = ""
  · simp [h1, h2, h3]
  cases hf : f (.insertItem i) with
  | some e => simp [h1, h2, h3, hf, retErr, checkPostgresError]
  | none =>
    right
    refine ⟨⟨h1, by omega⟩, h3, rfl, (createItemTx f st item uid i).2, ?_, ?_, ?_, ?_⟩ <;>
      simp [createItemTx, h1, h2, h3, hf, note]

/-- Summary of the item loop for any fault plan. -/
theorem createItems_spec (f : Faults) (uid : String) :
    ∀ (items : List Item) (i : Nat) (st : TxState),
      ∃ rows : List ItemRow,
        (createItems f uid items i st).2.work =
          { st.work with item := st.work.item ++ rows } ∧
        (∀ r ∈ rows, r.order_uid = uid) ∧
        (createItems f uid items i st).2.seqs.delivery = st.seqs.delivery ∧
        (createItems f uid items i st).2.seqs.payment = st.seqs.payment ∧
        (∀ c ∈ (createItems f uid items i st).2.trace, c ∈ st.trace ∨ ∃ j, c = .insertItem j) ∧
        ((createItems f uid items i st).1 = none →
          rows.map (fun r => r.item) = items ∧ (∀ it ∈ items, it.Valid) ∧
          (items ≠ [] → uid ≠ "")) := by
  intro items
  induction items with
  | nil =>
    intro i st
    exact ⟨[], by simp [createItems], by simp, rfl, rfl,
      fun c hc => Or.inl (by simpa [createItems] using hc), by simp⟩
  | cons item rest ih =>
    intro i st
    rcases createItemTx_spec f st item uid i with ⟨e, he, hst⟩ | ⟨hv, hu, _, st1, heq, hw1, hs1, ht1⟩
    · have hc : createItems f uid (item :: rest) i st =
          (some (errorfW ("item " ++ toString (i + 1) ++ " creation error: ")
            (checkPostgresError (some e)) ""), (createItemTx f st item uid i).2) := by
        rw [createItems]
        generalize createItemTx f st item uid i = r at he
        obtain ⟨r1, r2⟩ := r
        simp only at he
        subst he
        rfl
      rw [hc]
      refine ⟨[], ?_, by simp, ?_, ?_, ?_, by simp⟩
      · rcases hst with h | h <;> simp [h, note]
      · rcases hst with h | h <;> simp [h, note]
      · rcases hst with h | h <;> simp [h, note]
      · intro c hcm
        rcases hst with h | h
        · left; simpa [h] using hcm
        · simp only [h, note, List.mem_append, List.mem_singleton] at hcm
          rcases hcm with hcm | hcm
          · exact Or.inl hcm
          · exact Or.inr ⟨i, hcm⟩
    · have hc : createItems f uid (item :: rest) i st =
          createItems f uid rest (i + 1) (createItemTx f st item uid i).2 := by
        rw [createItems, heq]
      rw [hc]
      obtain ⟨rows, h1, h2, h3, h4, h5, h6⟩ := ih (i + 1) (createItemTx f st item uid i).2
      refine ⟨⟨((st.seqs.item + 1 : Nat) : Int), item, uid⟩ :: rows, ?_, ?_, ?_, ?_, ?_, ?_⟩
      · rw [h1, heq]; simp [hw1]
      · intro r hr
        rcases List.mem_cons.mp hr with h | h
        · subst h; rfl
        · exact h2 r h
      · rw [h3, heq]; simp [hs1]
      · rw [h4, heq]; simp [hs1]
      · intro c hcm
        rcases h5 c hcm with h | h
        · rw [heq] at h
          simp only [ht1, List.mem_append, List.mem_singleton] at h
          rcases h with h | h
          · exact Or.inl h
          · exact Or.inr ⟨i, h⟩
        · exact Or.inr h
      · intro hn
        obtain ⟨a, b, _⟩ := h6 hn
        refine ⟨by simp [a], ?_, fun _ => hu⟩
        intro it hit
        rcases List.mem_cons.mp hit with h | h
        · subst h; exact hv
        · exact b it h

/-- The item loop only appends to the trace. -/
theorem createItems_trace (f : Faults) (uid : String) :
    ∀ (items : List Item) (i : Nat) (st : TxState),
      ∃ l, (createItems f uid items i st).2.trace = st.trace ++ l := by
  intro items
  induction items with
  | nil => intro i st; exact ⟨[], by simp [createItems]⟩
  | cons item rest ih =>
    intro i st
    rcases createItemTx_spec f st item uid i with ⟨e, he, hst⟩ | ⟨_, _, _, st1, heq, _, _, ht1⟩
    · obtain ⟨st9, hp⟩ : ∃ st9, createItemTx f st item uid i = (.error e, st9) :=
        ⟨_, Prod.ext he rfl⟩
      rw [hp] at hst
      rw [createItems, hp]
      rcases hst with h | h
      · simp only at h
        exact ⟨[], by simp [h]⟩
      · simp only at h
        exact ⟨[.insertItem i], by simp [h, note]⟩
    · obtain ⟨l, hl⟩ := ih (i + 1) st1
      rw [createItems, heq]
      exact ⟨.insertItem i :: l, by simp [hl, ht1]⟩

/-- Under a fault-free engine the item loop succeeds on valid items. -/
theorem createItems_noFaults (uid : String) (hu : uid ≠ "") :
    ∀ (items : List Item) (i : Nat) (st : TxState), (∀ it ∈ items, it.Valid) →
      (createItems noFaults uid items i st).1 = none := by
  intro items
  induction items with
  | nil => intro i st _; rfl
  | cons item rest ih =>
    intro i st hv
    have h1 : item.Name ≠ "" := (hv item (List.mem_cons_self _ _)).1
    have h2 : ¬ item.Price ≤ 0 := by
      have := (hv item (List.mem_cons_self _ _)).2; omega
    rw [createItems]
    simp only [createItemTx, h1, h2, hu, noFaults, if_false]
    exact ih _ _ (fun it hit => hv it (List.mem_cons_of_mem _ hit))

/-- The delivery insert: it fails leaving the transaction as it was or, for a
valid delivery, with the call noted; or the delivery is valid and its row is
appended under a new id. -/
theorem createDeliveryTx_spec (f : Faults) (st : TxState) (d : Delivery) :
    (∃ e, (createDeliveryTx f st d).1 = .error e ∧
      ((createDeliveryTx f st d).2 = st ∨
        ((d.Name ≠ "" ∧ d.Phone ≠ "") ∧
          (createDeliveryTx f st d).2 = note st .insertDelivery))) ∨
    ((d.Name ≠ "" ∧ d.Phone ≠ "") ∧ f .insertDelivery = none ∧
      ∃ st1 : TxState,
        createDeliveryTx f st d = (.ok ((st.seqs.delivery + 1 : Nat) : Int), st1) ∧
        st1.work = { st.work with
          delivery := st.work.delivery ++ [(((st.seqs.delivery + 1 : Nat) : Int), d)] } ∧
        st1.seqs = { st.seqs with delivery := st.seqs.delivery + 1 } ∧
        st1.trace = st.trace ++ [.insertDelivery] ∧ st1.held = st.held) := by
  unfold createDeliveryTx
  by_cases h1 : d.Name = ""
  · simp [h1]
  by_cases h2 : d.Phone = ""
  · simp [h1, h2]
  cases hf : f .insertDelivery with
  | some e => simp [h1, h2, hf, retErr, checkPostgresError]
  | none =>
    right
    refine ⟨⟨h1, h2⟩, rfl, (createDeliveryTx f st d).2, ?_, ?_, ?_, ?_, ?_⟩ <;>
      simp [createDeliveryTx, h1, h2, hf, note]

/-- The payment insert: it fails leaving the transaction as it was or, for a
valid payment, with the call noted; or the payment is valid and its row is
appended under a new id. -/
theorem createPaymentTx_spec (f : Faults) (st : TxState) (pay : Payment) :
    (∃ e, (createPaymentTx f st pay).1 = .error e ∧
      ((createPaymentTx f st pay).2 = st ∨
        ((pay.Transaction ≠ "" ∧ pay.Provider ≠ "" ∧ 0 < pay.Amount) ∧
          (createPaymentTx f st pay).2 = note st .insertPayment))) ∨
    ((pay.Transaction ≠ "" ∧ pay.Provider ≠ "" ∧ 0 < pay.Amount) ∧ f .insertPayment = none ∧
      ∃ st1 : TxState,
        createPaymentTx f st pay = (.ok ((st.seqs.payment + 1 : Nat) : Int), st1) ∧
        st1.work = { st.work with
          payment := st.work.payment ++ [(((st.seqs.payment + 1 : Nat) : Int), pay)] } ∧
        st1.seqs = { st.seqs with payment := st.seqs.payment + 1 } ∧
        st1.trace = st.trace ++ [.insertPayment] ∧ st1.held = st.held) := by
  unfold createPaymentTx
  by_cases h1 : pay.Transaction = ""
  · simp [h1]
  by_cases h2 : pay.Provider = ""
  · simp [h1, h2]
  by_cases h3 : pay.Amount ≤ 0
  · simp [h1, h2, h3]
  cases hf : f .insertPayment with
  | some e => simp [h1, h2, h3, hf, retErr, checkPostgresError]; omega
  | none =>
    right
    refine ⟨⟨h1, h2, by omega⟩, rfl, (createPaymentTx f st pay).2, ?_, ?_, ?_, ?_, ?_⟩ <;>
      simp [createPaymentTx, h1, h2, h3, hf, note]

/-- The `orders` insert: it fails with the call noted, or the identifier is
new, no open transaction holds it, and the row is appended. -/
theorem execInsertOrder_spec (f : Faults) (st : TxState) (row : OrderRow) :
    (∃ e, execInsertOrder f st row = (some e, note st .insertOrder)) ∨
    (f .insertOrder = none ∧
      ((∀ r ∈ st.work.orders, r.order_uid ≠ row.order_uid) ∧ row.order_uid ∉ st.held) ∧
      ∃ st1 : TxState, execInsertOrder f st row = (none, st1) ∧
        st1.work = { st.work with orders := st.work.orders ++ [row] } ∧
        st1.seqs = st.seqs ∧
        st1.trace = st.trace ++ [.insertOrder]) := by
  unfold execInsertOrder
  cases hf : f .insertOrder with
  | some e => left; exact ⟨e, rfl⟩
  | none =>
    by_cases h : (note st .insertOrder).work.orders.any
        (fun r => decide (r.order_uid = row.order_uid)) = true
    · left; exact ⟨uniqueViolation, by simp [h]⟩
    by_cases hh : row.order_uid ∈ (note st .insertOrder).held
    · left; exact ⟨lockWait, by simp [h, hh]⟩
    · right
      simp only [note] at h hh
      refine ⟨rfl, ⟨?_, hh⟩, (execInsertOrder f st row).2, ?_, ?_, ?_, ?_⟩
      · intro r hr heq
        apply h
        exact List.any_eq_true.mpr ⟨r, hr, by simp [heq]⟩
      all_goals simp [execInsertOrder, hf, h, hh, note]

/-- When the body of `CreateOrder` returns nil, every validation passed, the
identifier was new and not held, the commit took effect, and the transaction
holds the old rows followed by the rows of the order. -/
theorem createOrderBody_ok (f : Faults) (st0 : TxState) (o : Order)
    (h : (createOrderBody f st0 o).ret = none) :
    (o.Delivery.Name ≠ "" ∧ o.Delivery.Phone ≠ "") ∧
    (o.Payment.Transaction ≠ "" ∧ o.Payment.Provider ≠ "" ∧ 0 < o.Payment.Amount) ∧
    (∀ it ∈ o.Items, it.Valid) ∧
    ((∀ r ∈ st0.work.orders, r.order_uid ≠ o.OrderUID) ∧ o.OrderUID ∉ st0.held) ∧
    (createOrderBody f st0 o).committed = true ∧
    (createOrderBody f st0 o).errVar = none ∧
    ∃ rows : List ItemRow, rows.map (fun r => r.item) = o.Items ∧
      (∀ r ∈ rows, r.order_uid = o.OrderUID) ∧
      (createOrderBody f st0 o).st.work =
        ⟨st0.work.delivery ++ [(((st0.seqs.delivery + 1 : Nat) : Int), o.Delivery)],
          st0.work.payment ++ [(((st0.seqs.payment + 1 : Nat) : Int), o.Payment)],
          st0.work.orders ++ [orderRow o ((st0.seqs.delivery + 1 : Nat) : Int)
            ((st0.seqs.payment + 1 : Nat) : Int)],
          st0.work.item ++ rows⟩ ∧
      (createOrderBody f st0 o).st.seqs.delivery = st0.seqs.delivery + 1 ∧
      (createOrderBody f st0 o).st.seqs.payment = st0.seqs.payment + 1 := by
  rcases createDeliveryTx_spec f st0 o.Delivery with
    ⟨e, he, _⟩ | ⟨hd, _, st1, hdq, hw1, hs1, _, hh1⟩
  · obtain ⟨st9, hp⟩ : ∃ st9, createDeliveryTx f st0 o.Delivery = (.error e, st9) :=
      ⟨_, Prod.ext he rfl⟩
    rw [createOrderBody, hp] at h
    cases h
  rcases createPaymentTx_spec f st1 o.Payment with
    ⟨e, he, _⟩ | ⟨hpv, _, st2, hpq, hw2, hs2, _, hh2⟩
  · obtain ⟨st9, hp⟩ : ∃ st9, createPaymentTx f st1 o.Payment = (.error e, st9) :=
      ⟨_, Prod.ext he rfl⟩
    rw [createOrderBody, hdq] at h
    simp only [hp] at h
    cases h
  rcases execInsertOrder_spec f st2 (orderRow o ((st0.seqs.delivery + 1 : Nat) : Int)
      ((st1.seqs.payment + 1 : Nat) : Int)) with
    ⟨e, heq⟩ | ⟨_, ⟨hfresh, hfree⟩, st3, hoq, hw3, hs3, _⟩
  · rw [createOrderBody, hdq] at h
    simp only [hpq, heq] at h
    simp at h
  obtain ⟨rows, hw, hru, hsd, hsp, _, hnone⟩ := createItems_spec f o.OrderUID o.Items 0 st3
  have hbody : createOrderBody f st0 o =
      match createItems f o.OrderUID o.Items 0 st3 with
      | (some r, st4) => ⟨some r, none, st4, false⟩
      | (none, st4) =>
        match f .commit with
        | some e =>
          ⟨some (errorfW "failed to commit transaction: " (checkPostgresError (some e)) ""),
            some e, note st4 .commit, false⟩
        | none => ⟨none, none, note st4 .commit, true⟩ := by
    rw [createOrderBody, hdq]
    simp only [hpq, hoq]
  rw [hbody] at h ⊢
  generalize hci : createItems f o.OrderUID o.Items 0 st3 = ci at h hw hsd hsp hnone ⊢
  obtain ⟨c1, c2⟩ := ci
  cases c1 with
  | some r => cases h
  | none =>
    cases hfc : f .commit with
    | some e => rw [hfc] at h; cases h
    | none =>
      simp only [hfc]
      obtain ⟨hmap, hval, _⟩ := hnone rfl
      have hp1 : st1.seqs.payment = st0.seqs.payment := by rw [hs1]
      have hw0 : c2.work = _ := hw
      have hsd0 : c2.seqs.delivery = _ := hsd
      have hsp0 : c2.seqs.payment = _ := hsp
      refine ⟨hd, hpv, hval, ⟨?_, ?_⟩, by simp, by simp, rows, hmap, hru, ?_, ?_, ?_⟩
      · intro r hr
        have := hfresh r (by rw [hw2, hw1]; exact hr)
        simpa [orderRow] using this
      · rw [hh2, hh1] at hfree
        simpa [orderRow] using hfree
      · simp only [note, hw0, hw3, hw2, hw1, hp1]
      · simp only [note, hsd0, hs3, hs2, hs1]
      · simp only [note, hsp0, hs3, hs2, hs1]

/-- What holds of the body of `CreateOrder` whatever the outcome: a failure
commits nothing, sequences never go back, the calls it adds are inserts and,
only after every validation passed, the commit; a delivery that fails
validation stops it before any call, with the function-level `err` set. -/
theorem createOrderBody_any (f : Faults) (st0 : TxState) (o : Order) :
    ((createOrderBody f st0 o).ret ≠ none → (createOrderBody f st0 o).committed = false) ∧
    st0.seqs.delivery ≤ (createOrderBody f st0 o).st.seqs.delivery ∧
    st0.seqs.payment ≤ (createOrderBody f st0 o).st.seqs.payment ∧
    (∀ c ∈ (createOrderBody f st0 o).st.trace,
      c ∈ st0.trace ∨ c = .insertDelivery ∨ c = .insertPayment ∨ c = .insertOrder ∨
      (∃ j, c = .insertItem j) ∨
      (c = .commit ∧ (o.Delivery.Name ≠ "" ∧ o.Delivery.Phone ≠ "") ∧
        (o.Payment.Transaction ≠ "" ∧ o.Payment.Provider ≠ "" ∧ 0 < o.Payment.Amount) ∧
        ∀ it ∈ o.Items, it.Valid)) ∧
    (¬ (o.Delivery.Name ≠ "" ∧ o.Delivery.Phone ≠ "") →
      (createOrderBody f st0 o).st.trace = st0.trace ∧
      (createOrderBody f st0 o).errVar ≠ none) ∧
    (¬ (o.Payment.Transaction ≠ "" ∧ o.Payment.Provider ≠ "" ∧ 0 < o.Payment.Amount) →
      ∀ c ∈ (createOrderBody f st0 o).st.trace, c ∈ st0.trace ∨ c = .insertDelivery) ∧
    (∃ l, (createOrderBody f st0 o).st.trace = st0.trace ++ l) := by
  rcases createDeliveryTx_spec f st0 o.Delivery with
    ⟨e, he, hst⟩ | ⟨hd, _, st1, hdq, hw1, hs1, ht1, _⟩
  · obtain ⟨st9, hp⟩ : ∃ st9, createDeliveryTx f st0 o.Delivery = (.error e, st9) :=
      ⟨_, Prod.ext he rfl⟩
    have hst9 : st9 = st0 ∨ ((o.Delivery.Name ≠ "" ∧ o.Delivery.Phone ≠ "") ∧
        st9 = note st0 .insertDelivery) := by
      rw [hp] at hst; exact hst
    have hb : createOrderBody f st0 o =
        ⟨some (errorfW "delivery creation error: " (checkPostgresError (some e)) ""),
          some e, st9, false⟩ := by
      rw [createOrderBody, hp]
    rw [hb]
    rcases hst9 with h | ⟨hv, h⟩
    · subst h
      exact ⟨fun _ => rfl, le_refl _, le_refl _, fun c hc => Or.inl hc,
        fun _ => ⟨rfl, by simp⟩, fun _ c hc => Or.inl hc, [], by simp⟩
    · subst h
      refine ⟨fun _ => rfl, le_refl _, le_refl _, ?_, fun hn => absurd hv hn, ?_,
        [.insertDelivery], rfl⟩
      · intro c hc
        simp only [note, List.mem_append, List.mem_singleton] at hc
        rcases hc with hc | hc <;> simp [hc]
      · intro _ c hc
        simpa [note] using hc
  have hd1 : st0.seqs.delivery ≤ st1.seqs.delivery := by rw [hs1]; simp
  have hp1 : st1.seqs.payment = st0.seqs.payment := by rw [hs1]
  rcases createPaymentTx_spec f st1 o.Payment with
    ⟨e, he, hst⟩ | ⟨hpv, _, st2, hpq, hw2, hs2, ht2, _⟩
  · obtain ⟨st9, hp⟩ : ∃ st9, createPaymentTx f st1 o.Payment = (.error e, st9) :=
      ⟨_, Prod.ext he rfl⟩
    have hst9 : st9 = st1 ∨ ((o.Payment.Transaction ≠ "" ∧ o.Payment.Provider ≠ "" ∧
        0 < o.Payment.Amount) ∧ st9 = note st1 .insertPayment) := by
      rw [hp] at hst; exact hst
    have hb : createOrderBody f st0 o =
        ⟨some (errorfW "payment creation error: " (checkPostgresError (some e)) ""),
          some e, st9, false⟩ := by
      rw [createOrderBody, hdq]
      simp only [hp]
    rw [hb]
    rcases hst9 with h | ⟨hv, h⟩
    · subst h
      refine ⟨fun _ => rfl, hd1, by rw [hp1], ?_, fun hn => absurd hd hn, ?_,
        [.insertDelivery], ht1⟩
      · intro c hc
        simp only [ht1, List.mem_append, List.mem_singleton] at hc
        rcases hc with hc | hc <;> simp [hc]
      · intro _ c hc
        simpa [ht1] using hc
    · subst h
      refine ⟨fun _ => rfl, hd1, by simp [note, hp1], ?_, fun hn => absurd hd hn,
        fun hn => absurd hv hn, [.insertDelivery, .insertPayment], by simp [note, ht1]⟩
      intro c hc
      simp only [note, ht1, List.mem_append, List.mem_singleton] at hc
      rcases hc with (hc | hc) | hc <;> simp [hc]
  have hd2 : st0.seqs.delivery ≤ st2.seqs.delivery := by rw [hs2]; exact hd1
  have hp2 : st0.seqs.payment ≤ st2.seqs.payment := by rw [hs2]; simp [hp1]
  have ht2m : ∀ c ∈ st2.trace, c ∈ st0.trace ∨ c = .insertDelivery ∨ c = .insertPayment := by
    intro c hc
    simp only [ht2, ht1, List.mem_append, List.mem_singleton] at hc
    rcases hc with (hc | hc) | hc <;> simp [hc]
  rcases execInsertOrder_spec f st2 (orderRow o ((st0.seqs.delivery + 1 : Nat) : Int)
      ((st1.seqs.payment + 1 : Nat) : Int)) with ⟨e, heq⟩ | ⟨_, _, st3, hoq, hw3, hs3, ht3⟩
  · have hb : createOrderBody f st0 o =
        ⟨some (errorfW "order creation error: " (checkPostgresError (some e)) ""),
          some e, note st2 .insertOrder, false⟩ := by
      rw [createOrderBody, hdq]
      simp only [hpq, heq]
    rw [hb]
    refine ⟨fun _ => rfl, hd2, hp2, ?_, fun hn => absurd hd hn, fun hn => absurd hpv hn,
      [.insertDelivery, .insertPayment, .insertOrder], by simp [note, ht2, ht1]⟩
    intro c hc
    simp only [note, List.mem_append, List.mem_singleton] at hc
    rcases hc with hc | hc
    · rcases ht2m c hc with h | h | h <;> simp [h]
    · simp [hc]
  have ht3m : ∀ c ∈ st3.trace, c ∈ st0.trace ∨ c = .insertDelivery ∨ c = .insertPayment ∨
      c = .insertOrder := by
    intro c hc
    simp only [ht3, List.mem_append, List.mem_singleton] at hc
    rcases hc with hc | hc
    · rcases ht2m c hc with h | h | h <;> simp [h]
    · simp [hc]
  obtain ⟨rows, _, _, hsd, hsp, htr, hnone⟩ := createItems_spec f o.OrderUID o.Items 0 st3
  obtain ⟨l4, hl4⟩ := createItems_trace f o.OrderUID o.Items 0 st3
  have hbody : createOrderBody f st0 o =
      match createItems f o.OrderUID o.Items 0 st3 with
      | (some r, st4) => ⟨some r, none, st4, false⟩
      | (none, st4) =>
        match f .commit with
        | some e =>
          ⟨some (errorfW "failed to commit transaction: " (checkPostgresError (some e)) ""),
            some e, note st4 .commit, false⟩
        | none => ⟨none, none, note st4 .commit, true⟩ := by
    rw [createOrderBody, hdq]
    simp only [hpq, hoq]
  rw [hbody]
  generalize createItems f o.OrderUID o.Items 0 st3 = ci at hsd hsp htr hnone hl4
  obtain ⟨c1, c2⟩ := ci
  have hl40 : c2.trace = st0.trace ++ ([.insertDelivery, .insertPayment, .insertOrder] ++ l4) := by
    have : c2.trace = st3.trace ++ l4 := hl4
    simp [this, ht3, ht2, ht1]
  have hsd0 : c2.seqs.delivery = st3.seqs.delivery := hsd
  have hsp0 : c2.seqs.payment = st3.seqs.payment := hsp
  have htr0 : ∀ c ∈ c2.trace, c ∈ st0.trace ∨ c = .insertDelivery ∨ c = .insertPayment ∨
      c = .insertOrder ∨ ∃ j, c = .insertItem j := by
    intro c hc
    rcases htr c hc with h | h
    · rcases ht3m c h with h | h | h | h <;> simp [h]
    · simp [h]
  have hmono : st0.seqs.delivery ≤ c2.seqs.delivery ∧ st0.seqs.payment ≤ c2.seqs.payment := by
    rw [hsd0, hsp0, hs3]; exact ⟨hd2, hp2⟩
  cases c1 with
  | some r =>
    refine ⟨fun _ => rfl, hmono.1, hmono.2, ?_, fun hn => absurd hd hn, fun hn => absurd hpv hn,
      _, hl40⟩
    intro c hc
    rcases htr0 c hc with h | h | h | h | h <;> simp [h]
  | none =>
    obtain ⟨_, hval, _⟩ := hnone rfl
    have htc : ∀ c ∈ (note c2 .commit).trace,
        c ∈ st0.trace ∨ c = .insertDelivery ∨ c = .insertPayment ∨ c = .insertOrder ∨
        (∃ j, c = .insertItem j) ∨
        (c = .commit ∧ (o.Delivery.Name ≠ "" ∧ o.Delivery.Phone ≠ "") ∧
          (o.Payment.Transaction ≠ "" ∧ o.Payment.Provider ≠ "" ∧ 0 < o.Payment.Amount) ∧
          ∀ it ∈ o.Items, it.Valid) := by
      intro c hc
      simp only [note, List.mem_append, List.mem_singleton] at hc
      rcases hc with hc | hc
      · rcases htr0 c hc with h | h | h | h | h <;> simp [h]
      · right; right; right; right; right
        exact ⟨hc, hd, hpv, hval⟩
    have hl5 : (note c2 .commit).trace = st0.trace ++
        ([.insertDelivery, .insertPayment, .insertOrder] ++ l4 ++ [.commit]) := by
      simp [note, hl40]
    cases hfc : f .commit with
    | some e =>
      exact ⟨fun _ => rfl, hmono.1, hmono.2, htc, fun hn => absurd hd hn,
        fun hn => absurd hpv hn, _, hl5⟩
    | none =>
      exact ⟨fun hn => absurd rfl hn, hmono.1, hmono.2, htc, fun hn => absurd hd hn,
        fun hn => absurd hpv hn, _, hl5⟩

/-- Under a fault-free engine the body of `CreateOrder` returns nil on a
valid order with a new identifier. -/
theorem createOrderBody_noFaults (st0 : TxState) (o : Order) (hv : o.Valid)
    (hfresh : ∀ r ∈ st0.work.orders, r.order_uid ≠ o.OrderUID)
    (hfree : o.OrderUID ∉ st0.held) :
    (createOrderBody noFaults st0 o).ret = none := by
  obtain ⟨hu, hn, hp, ht, hpr, ha, hi⟩ := hv
  rcases createDeliveryTx_spec noFaults st0 o.Delivery with
    ⟨e, he, _⟩ | ⟨_, _, st1, hdq, hw1, _, _, hh1⟩
  · simp [createDeliveryTx, hn, hp, noFaults] at he
  rcases createPaymentTx_spec noFaults st1 o.Payment with
    ⟨e, he, _⟩ | ⟨_, _, st2, hpq, hw2, _, _, hh2⟩
  · have : ¬ o.Payment.Amount ≤ 0 := by omega
    simp [createPaymentTx, ht, hpr, this, noFaults] at he
  rcases execInsertOrder_spec noFaults st2 (orderRow o ((st0.seqs.delivery + 1 : Nat) : Int)
      ((st1.seqs.payment + 1 : Nat) : Int)) with ⟨e, heq⟩ | ⟨_, _, st3, hoq, _, _, _⟩
  · exfalso
    have hany : (note st2 .insertOrder).work.orders.any (fun r => decide (r.order_uid =
        (orderRow o ((st0.seqs.delivery + 1 : Nat) : Int)
          ((st1.seqs.payment + 1 : Nat) : Int)).order_uid)) = false := by
      rw [List.any_eq_false]
      intro r hr
      simp only [note, hw2, hw1] at hr
      simpa [orderRow] using hfresh r hr
    have hheld : (orderRow o ((st0.seqs.delivery + 1 : Nat) : Int)
        ((st1.seqs.payment + 1 : Nat) : Int)).order_uid ∉ (note st2 .insertOrder).held := by
      simp only [note, hh2, hh1]
      exact hfree
    simp only [execInsertOrder, noFaults, hany, Bool.false_eq_true, if_false, hheld] at heq
    exact absurd (congrArg Prod.fst heq) (by simp)
  have hci := createItems_noFaults o.OrderUID hu o.Items 0 st3 hi
  rw [createOrderBody, hdq]
  simp only [hpq, hoq]
  generalize createItems noFaults o.OrderUID o.Items 0 st3 = ci at hci
  obtain ⟨c1, c2⟩ := ci
  simp only at hci
  subst hci
  rfl

/-- The result of `CreateOrder` once the identifier is not empty and `Begin`
succeeded. -/
theorem CreateOrder_begun (f : Faults) (db : DB) (o : Order) (hu : o.OrderUID ≠ "")
    (hb : f .begin = none) :
    CreateOrder f db o =
      ⟨(createOrderBody f ⟨db.tables, db.seqs, [.begin], db.held⟩ o).ret,
        ⟨if (createOrderBody f ⟨db.tables, db.seqs, [.begin], db.held⟩ o).committed then
            (createOrderBody f ⟨db.tables, db.seqs, [.begin], db.held⟩ o).st.work
          else db.tables,
          (createOrderBody f ⟨db.tables, db.seqs, [.begin], db.held⟩ o).st.seqs,
          if (createOrderBody f ⟨db.tables, db.seqs, [.begin], db.held⟩ o).committed ||
              (createOrderBody f ⟨db.tables, db.seqs, [.begin], db.held⟩ o).errVar.isSome then
            db.held
          else db.held ++
            ((createOrderBody f ⟨db.tables, db.seqs, [.begin], db.held⟩ o).st.work.orders.drop
              db.tables.orders.length).map (fun row => row.order_uid)⟩,
        if (createOrderBody f ⟨db.tables, db.seqs, [.begin], db.held⟩ o).errVar.isSome then
          (createOrderBody f ⟨db.tables, db.seqs, [.begin], db.held⟩ o).st.trace ++ [.rollback]
        else (createOrderBody f ⟨db.tables, db.seqs, [.begin], db.held⟩ o).st.trace⟩ := by
  unfold CreateOrder
  simp only [hu, if_false, hb]
  generalize createOrderBody f ⟨db.tables, db.seqs, [.begin], db.held⟩ o = r
  cases hr : r.errVar.isSome <;> simp [note]

/-- A failed `CreateOrder` leaves the committed rows as they were. -/
theorem CreateOrder_err_tables (f : Faults) (db : DB) (o : Order)
    (h : (CreateOrder f db o).err ≠ none) : (CreateOrder f db o).db.tables = db.tables := by
  by_cases hu : o.OrderUID = ""
  · simp [CreateOrder, hu]
  cases hb : f .begin with
  | some e => simp [CreateOrder, hu, hb]
  | none =>
    rw [CreateOrder_begun f db o hu hb] at h ⊢
    simp only at h ⊢
    rw [(createOrderBody_any f _ o).1 h]
    simp

/-- A successful `CreateOrder`: the order was valid, its identifier new, and
the committed rows are the old rows followed by the rows of the order. -/
theorem CreateOrder_ok_shape (f : Faults) (db : DB) (o : Order)
    (h : (CreateOrder f db o).err = none) :
    o.Valid ∧ ¬ db.hasOrder o.OrderUID ∧
    ∃ rows : List ItemRow, rows.map (fun r => r.item) = o.Items ∧
      (∀ r ∈ rows, r.order_uid = o.OrderUID) ∧
      (CreateOrder f db o).db.tables =
        ⟨db.tables.delivery ++ [(((db.seqs.delivery + 1 : Nat) : Int), o.Delivery)],
          db.tables.payment ++ [(((db.seqs.payment + 1 : Nat) : Int), o.Payment)],
          db.tables.orders ++ [orderRow o ((db.seqs.delivery + 1 : Nat) : Int)
            ((db.seqs.payment + 1 : Nat) : Int)],
          db.tables.item ++ rows⟩ ∧
      (CreateOrder f db o).db.seqs.delivery = db.seqs.delivery + 1 ∧
      (CreateOrder f db o).db.seqs.payment = db.seqs.payment + 1 := by
  by_cases hu : o.OrderUID = ""
  · simp [CreateOrder, hu] at h
  cases hb : f .begin with
  | some e => simp [CreateOrder, hu, hb] at h
  | none =>
    rw [CreateOrder_begun f db o hu hb] at h ⊢
    simp only at h ⊢
    obtain ⟨hd, hp, hi, ⟨hfresh, _⟩, hc, _, rows, hmap, hru, hw, hsd, hsp⟩ :=
      createOrderBody_ok f _ o h
    refine ⟨⟨hu, hd.1, hd.2, hp.1, hp.2.1, hp.2.2, hi⟩, ?_, rows, hmap, hru, ?_, hsd, hsp⟩
    · rintro ⟨r, hr, hre⟩
      exact hfresh r hr hre
    · rw [hc, hw]; simp

/-- Under a fault-free engine `CreateOrder` succeeds on a valid order whose
identifier is new and not held by an open transaction. -/
theorem CreateOrder_noFaults_ok (db : DB) (o : Order) (hv : o.Valid)
    (hnew : ¬ db.hasOrder o.OrderUID) (hfree : o.OrderUID ∉ db.held) :
    (CreateOrder noFaults db o).err = none := by
  rw [CreateOrder_begun noFaults db o hv.1 rfl]
  exact createOrderBody_noFaults _ o hv (fun r hr he => hnew ⟨r, hr, he⟩) hfree

/-- The sequences never go back. -/
theorem CreateOrder_seqs (f : Faults) (db : DB) (o : Order) :
    db.seqs.delivery ≤ (CreateOrder f db o).db.seqs.delivery ∧
    db.seqs.payment ≤ (CreateOrder f db o).db.seqs.payment := by
  by_cases hu : o.OrderUID = ""
  · simp [CreateOrder, hu]
  cases hb : f .begin with
  | some e => simp [CreateOrder, hu, hb]
  | none =>
    rw [CreateOrder_begun f db o hu hb]
    exact ⟨(createOrderBody_any f ⟨db.tables, db.seqs, [.begin], db.held⟩ o).2.1,
      (createOrderBody_any f ⟨db.tables, db.seqs, [.begin], db.held⟩ o).2.2.1⟩

/-- The schema constraints hold again after `CreateOrder`, whatever the fault
plan and the outcome. -/
theorem CreateOrder_WF (f : Faults) (db : DB) (o : Order) (hwf : db.WF) :
    (CreateOrder f db o).db.WF := by
  obtain ⟨w1, w2, w3, w4⟩ := hwf
  obtain ⟨s1, s2⟩ := CreateOrder_seqs f db o
  cases he : (CreateOrder f db o).err with
  | some e =>
    have ht := CreateOrder_err_tables f db o (by simp [he])
    refine ⟨?_, ?_, ?_, ?_⟩
    · intro r hr; rw [ht] at hr
      have := w1 r hr; omega
    · intro r hr; rw [ht] at hr
      have := w2 r hr; omega
    · intro r hr; rw [ht] at hr ⊢; exact w3 r hr
    · rw [ht]; exact w4
  | none =>
    obtain ⟨_, hnew, rows, _, hru, ht, hsd, hsp⟩ := CreateOrder_ok_shape f db o he
    refine ⟨?_, ?_, ?_, ?_⟩
    · intro r hr
      rw [ht] at hr
      simp only [List.mem_append, List.mem_singleton] at hr
      rcases hr with hr | hr
      · have := w1 r hr; omega
      · rw [hr, hsd]
    · intro r hr
      rw [ht] at hr
      simp only [List.mem_append, List.mem_singleton] at hr
      rcases hr with hr | hr
      · have := w2 r hr; omega
      · rw [hr, hsp]
    · intro r hr
      rw [ht] at hr ⊢
      simp only [List.mem_append] at hr
      rcases hr with hr | hr
      · obtain ⟨x, hx, hxe⟩ := w3 r hr
        exact ⟨x, by simp [hx], hxe⟩
      · exact ⟨orderRow o ((db.seqs.delivery + 1 : Nat) : Int) ((db.seqs.payment + 1 : Nat) : Int),
          by simp, by simp [orderRow, hru r hr]⟩
    · rw [ht]
      simp only [List.map_append, List.map_cons, List.map_nil]
      rw [List.nodup_append]
      refine ⟨w4, by simp, ?_⟩
      intro a ha hb
      simp only [List.mem_singleton] at hb
      subst hb
      obtain ⟨r, hr, hre⟩ := List.mem_map.mp ha
      exact hnew ⟨r, hr, by simpa [orderRow] using hre⟩

/-- Under a fault-free engine the scan loop appends the items of the rows. -/
theorem scanItems_noFaults (uid : String) :
    ∀ (rows : List ItemRow) (i : Nat) (items : List Item),
      scanItems noFaults uid rows i items = .ok (items ++ rows.map (fun r => r.item)) := by
  intro rows
  induction rows with
  | nil => intro i items; simp [scanItems]
  | cons r rest ih =>
    intro i items
    rw [scanItems]
    simp only [noFaults]
    rw [ih]
    simp

/-- Under a fault-free engine `getItemsByOrderUID` returns the items of the
rows that carry the identifier, in table order. -/
theorem getItemsByOrderUID_noFaults (t : Tables) (uid : String) (hu : uid ≠ "") :
    getItemsByOrderUID noFaults t uid =
      .ok ((t.item.filter (fun r => decide (r.order_uid = uid))).map (fun r => r.item)) := by
  unfold getItemsByOrderUID
  simp only [hu, if_false]
  simp only [noFaults, scanItems_noFaults, List.nil_append]

/-- Reading back, with a fault-free engine, a store whose committed rows are
the rows of a well-formed store followed by the rows of one new order: the
order comes back with `DateCreated` in whole microseconds. -/
theorem GetOrder_after_insert (db db1 : DB) (o : Order) (rows : List ItemRow)
    (hwf : db.WF) (hu : o.OrderUID ≠ "") (hnew : ¬ db.hasOrder o.OrderUID)
    (hmap : rows.map (fun r => r.item) = o.Items)
    (hru : ∀ r ∈ rows, r.order_uid = o.OrderUID)
    (ht : db1.tables =
      ⟨db.tables.delivery ++ [(((db.seqs.delivery + 1 : Nat) : Int), o.Delivery)],
        db.tables.payment ++ [(((db.seqs.payment + 1 : Nat) : Int), o.Payment)],
        db.tables.orders ++ [orderRow o ((db.seqs.delivery + 1 : Nat) : Int)
          ((db.seqs.payment + 1 : Nat) : Int)],
        db.tables.item ++ rows⟩) :
    GetOrder noFaults db1 o.OrderUID =
      .ok { o with DateCreated := o.DateCreated.truncMicro } := by
  obtain ⟨w1, w2, w3, _⟩ := hwf
  have hq : queryRowOrder noFaults db1.tables o.OrderUID =
      .ok (orderRow o ((db.seqs.delivery + 1 : Nat) : Int)
        ((db.seqs.payment + 1 : Nat) : Int)) := by
    unfold queryRowOrder
    simp only [noFaults, ht]
    have hnone : db.tables.orders.find? (fun r => decide (r.order_uid = o.OrderUID)) = none := by
      rw [List.find?_eq_none]
      intro r hr
      have : r.order_uid ≠ o.OrderUID := fun he => hnew ⟨r, hr, he⟩
      simpa using this
    rw [List.find?_append, hnone]
    simp [orderRow]
  have hdl : getDelivery noFaults db1.tables ((db.seqs.delivery + 1 : Nat) : Int) =
      .ok o.Delivery := by
    unfold getDelivery
    have hpos : ¬ (((db.seqs.delivery + 1 : Nat) : Int) ≤ 0) := by omega
    simp only [hpos, if_false, noFaults, ht]
    have hnone : db.tables.delivery.find?
        (fun r => decide (r.1 = ((db.seqs.delivery + 1 : Nat) : Int))) = none := by
      rw [List.find?_eq_none]
      intro r hr
      have := w1 r hr
      have : r.1 ≠ ((db.seqs.delivery + 1 : Nat) : Int) := by omega
      simpa using this
    rw [List.find?_append, hnone]
    simp
  have hpy : getPayment noFaults db1.tables ((db.seqs.payment + 1 : Nat) : Int) =
      .ok o.Payment := by
    unfold getPayment
    have hpos : ¬ (((db.seqs.payment + 1 : Nat) : Int) ≤ 0) := by omega
    simp only [hpos, if_false, noFaults, ht]
    have hnone : db.tables.payment.find?
        (fun r => decide (r.1 = ((db.seqs.payment + 1 : Nat) : Int))) = none := by
      rw [List.find?_eq_none]
      intro r hr
      have := w2 r hr
      have : r.1 ≠ ((db.seqs.payment + 1 : Nat) : Int) := by omega
      simpa using this
    rw [List.find?_append, hnone]
    simp
  have hit : getItemsByOrderUID noFaults db1.tables o.OrderUID = .ok o.Items := by
    rw [getItemsByOrderUID_noFaults _ _ hu, ht]
    simp only [List.filter_append]
    have hold : db.tables.item.filter (fun r => decide (r.order_uid = o.OrderUID)) = [] := by
      rw [List.filter_eq_nil_iff]
      intro r hr
      obtain ⟨x, hx, hxe⟩ := w3 r hr
      have : r.order_uid ≠ o.OrderUID := fun he => hnew ⟨x, hx, hxe.trans he⟩
      simpa using this
    have hnew2 : rows.filter (fun r => decide (r.order_uid = o.OrderUID)) = rows := by
      rw [List.filter_eq_self]
      intro r hr
      simpa using hru r hr
    rw [hold, hnew2, List.nil_append, hmap]
  unfold GetOrder
  simp only [hu, if_false, hq]
  have e1 : (orderRow o ((db.seqs.delivery + 1 : Nat) : Int)
      ((db.seqs.payment + 1 : Nat) : Int)).delivery_id = ((db.seqs.delivery + 1 : Nat) : Int) := rfl
  have e2 : (orderRow o ((db.seqs.delivery + 1 : Nat) : Int)
      ((db.seqs.payment + 1 : Nat) : Int)).payment_id = ((db.seqs.payment + 1 : Nat) : Int) := rfl
  rw [e1, e2]
  simp only [hdl, hpy, hit]
  rfl

/-- The method `GetOrder` reads the committed rows only. -/
theorem GetOrder_congr (f : Faults) (db db1 : DB) (uid : String)
    (h : db1.tables = db.tables) : GetOrder f db1 uid = GetOrder f db uid := by
  unfold GetOrder
  rw [h]

/-- Under a fault-free engine, `CreateOrder` of a valid order whose identifier
is already committed fails at the `orders` insert with the mapped
unique-violation error, and the deferred function sees a non-nil `err`. -/
theorem createOrderBody_noFaults_dup (st0 : TxState) (o : Order) (hv : o.Valid)
    (hdup : ∃ r ∈ st0.work.orders, r.order_uid = o.OrderUID) :
    (createOrderBody noFaults st0 o).ret =
      some (.wrapf "order creation error: "
        (.wrapf "" (.sentinel .ErrOrderExists) ": violation of uniqueness") "") ∧
    (createOrderBody noFaults st0 o).errVar ≠ none := by
  obtain ⟨hu, hn, hp, ht, hpr, ha, hi⟩ := hv
  rcases createDeliveryTx_spec noFaults st0 o.Delivery with
    ⟨e, he, _⟩ | ⟨_, _, st1, hdq, hw1, _, _, _⟩
  · simp [createDeliveryTx, hn, hp, noFaults] at he
  rcases createPaymentTx_spec noFaults st1 o.Payment with
    ⟨e, he, _⟩ | ⟨_, _, st2, hpq, hw2, _, _, _⟩
  · have : ¬ o.Payment.Amount ≤ 0 := by omega
    simp [createPaymentTx, ht, hpr, this, noFaults] at he
  have hany : (note st2 .insertOrder).work.orders.any (fun r => decide (r.order_uid =
      (orderRow o ((st0.seqs.delivery + 1 : Nat) : Int)
        ((st1.seqs.payment + 1 : Nat) : Int)).order_uid)) = true := by
    obtain ⟨r, hr, hre⟩ := hdup
    rw [List.any_eq_true]
    refine ⟨r, ?_, by simp [orderRow, hre]⟩
    simp only [note, hw2, hw1]
    exact hr
  have hex : execInsertOrder noFaults st2 (orderRow o ((st0.seqs.delivery + 1 : Nat) : Int)
      ((st1.seqs.payment + 1 : Nat) : Int)) = (some uniqueViolation, note st2 .insertOrder) := by
    simp only [execInsertOrder, noFaults, hany, if_true]
  have hb : createOrderBody noFaults st0 o =
      ⟨some (errorfW "order creation error: " (checkPostgresError (some uniqueViolation)) ""),
        some uniqueViolation, note st2 .insertOrder, false⟩ := by
    rw [createOrderBody, hdq]
    simp only [hpq, hex]
  rw [hb]
  refine ⟨?_, by simp⟩
  have : checkPostgresError (some uniqueViolation) =
      some (.wrapf "" (.sentinel .ErrOrderExists) ": violation of uniqueness") := by decide
  rw [this]
  rfl

/-- Create-then-read under a fault-free engine, shared by the round-trip and
the second-create properties. -/
theorem CreateOrder_then_GetOrder (db : DB) (o : Order) (hwf : db.WF) (hv : o.Valid)
    (hnew : ¬ db.hasOrder o.OrderUID) (hfree : o.OrderUID ∉ db.held) :
    (CreateOrder noFaults db o).err = none ∧
    GetOrder noFaults (CreateOrder noFaults db o).db o.OrderUID =
      .ok { o with DateCreated := o.DateCreated.truncMicro } := by
  have hok := CreateOrder_noFaults_ok db o hv hnew hfree
  obtain ⟨_, _, rows, hmap, hru, ht, _, _⟩ := CreateOrder_ok_shape noFaults db o hok
  exact ⟨hok, GetOrder_after_insert db _ o rows hwf hv.1 hnew hmap hru ht⟩

end Postgres

/-- C1 as stated fails at a `DateCreated` that is not a whole number of
microseconds: the sample order dated 1637907727123456789 ns is valid and new
to the empty store, `CreateOrder` succeeds, and `GetOrder` returns it dated
1637907727123456000 ns, an order that differs from the input. -/
theorem CreateOrder_GetOrder_nanoseconds :
    DB.empty.WF ∧
    ({ sampleOrder with DateCreated := ⟨1637907727123456789⟩ } : Order).Valid ∧
    ¬ DB.empty.hasOrder "order-1" ∧
    (Postgres.CreateOrder noFaults DB.empty
      { sampleOrder with DateCreated := ⟨1637907727123456789⟩ }).err = none ∧
    Postgres.GetOrder noFaults
      (Postgres.CreateOrder noFaults DB.empty
        { sampleOrder with DateCreated := ⟨1637907727123456789⟩ }).db "order-1" =
      .ok { sampleOrder with DateCreated := ⟨1637907727123456000⟩ } ∧
    ({ sampleOrder with DateCreated := ⟨1637907727123456000⟩ } : Order) ≠
      { sampleOrder with DateCreated := ⟨1637907727123456789⟩ } :=
  ⟨by decide, by decide, by decide, by decide, rfl, by decide⟩

/-- The transaction that `CreateOrder` leaves open at a failed item insert
goes on holding the identifier: the store has no `orders` row for it, and a
later `CreateOrder` of the valid sample order with that identifier fails at
the `orders` insert, with an error of kind database-error. -/
theorem CreateOrder_after_open_transaction :
    ¬ (Postgres.CreateOrder noFaults DB.empty
      { sampleOrder with Items := [sampleItem, { sampleItem with Name := "" }] }).db.hasOrder
        "order-1" ∧
    (Postgres.CreateOrder noFaults DB.empty
      { sampleOrder with Items := [sampleItem, { sampleItem with Name := "" }] }).db.held =
      ["order-1"] ∧
    ∃ e, (Postgres.CreateOrder noFaults
        (Postgres.CreateOrder noFaults DB.empty
          { sampleOrder with Items := [sampleItem, { sampleItem with Name := "" }] }).db
        sampleOrder).err = some e ∧
      e.Is .ErrDatabaseError = true ∧
      (Postgres.CreateOrder noFaults
        (Postgres.CreateOrder noFaults DB.empty
          { sampleOrder with Items := [sampleItem, { sampleItem with Name := "" }] }).db
        sampleOrder).trace = [.begin, .insertDelivery, .insertPayment, .insertOrder, .rollback] :=
  ⟨by decide, by decide, _, rfl, by decide, by decide⟩

/-- C1, amended: with a fault-free engine and a store that satisfies the schema
constraints and in which no transaction was left open, `CreateOrder` of a
valid order whose identifier has no `orders` row succeeds, and `GetOrder` with
the same identifier then returns the input with `DateCreated` cut to whole
microseconds, every other field, the delivery, the payment and the items in
input order being those of the input; it returns the input itself when
`DateCreated` is a whole number of microseconds. -/
theorem CreateOrder_GetOrder_roundtrip (db : DB) (o : Order) (hwf : db.WF) (hv : o.Valid)
    (hnew : ¬ db.hasOrder o.OrderUID) (hfree : db.held = []) :
    (Postgres.CreateOrder noFaults db o).err = none ∧
    Postgres.GetOrder noFaults (Postgres.CreateOrder noFaults db o).db o.OrderUID =
      .ok { o with DateCreated := o.DateCreated.truncMicro } ∧
    (o.DateCreated.unixNano % 1000 = 0 →
      Postgres.GetOrder noFaults (Postgres.CreateOrder noFaults db o).db o.OrderUID = .ok o) := by
  obtain ⟨hok, hget⟩ :=
    Postgres.CreateOrder_then_GetOrder db o hwf hv hnew (by rw [hfree]; simp)
  refine ⟨hok, hget, fun hwhole => ?_⟩
  rw [hget, Time.truncMicro_of_whole o.DateCreated hwhole]

/-- The round trip at the sample order, dated in whole microseconds, and the
empty store. -/
theorem CreateOrder_GetOrder_roundtrip_witness :
    DB.empty.WF ∧ sampleOrder.Valid ∧ ¬ DB.empty.hasOrder sampleOrder.OrderUID ∧
    DB.empty.held = [] ∧
    sampleOrder.DateCreated.unixNano % 1000 = 0 ∧
    (Postgres.CreateOrder noFaults DB.empty sampleOrder).err = none ∧
    Postgres.GetOrder noFaults (Postgres.CreateOrder noFaults DB.empty sampleOrder).db
      sampleOrder.OrderUID = .ok sampleOrder :=
  ⟨by decide, by decide, by decide, by decide, by decide,
    (CreateOrder_GetOrder_roundtrip DB.empty sampleOrder (by decide) (by decide) (by decide)
      (by decide)).1,
    (CreateOrder_GetOrder_roundtrip DB.empty sampleOrder (by decide) (by decide) (by decide)
      (by decide)).2.2 (by decide)⟩

/-- C5: with a fault-free engine, after a valid order was created in a store
that satisfies the schema constraints and had neither a row for its identifier
nor a transaction left open, a second `CreateOrder` of a valid order
with the same identifier fails with an error of kind already-exists, and
`GetOrder` still returns the order committed by the first call: what it
returned before the second call, the first order with `DateCreated` in whole
microseconds, hence the first order itself when it is dated in whole
microseconds. -/
theorem CreateOrder_twice (db : DB) (o o2 : Order) (hwf : db.WF) (hv : o.Valid)
    (hnew : ¬ db.hasOrder o.OrderUID) (hfree : db.held = []) (hv2 : o2.Valid)
    (hid : o2.OrderUID = o.OrderUID) :
    (Postgres.CreateOrder noFaults db o).err = none ∧
    ∃ e, (Postgres.CreateOrder noFaults (Postgres.CreateOrder noFaults db o).db o2).err = some e ∧
      e.Is .ErrOrderExists = true ∧
      Postgres.GetOrder noFaults
        (Postgres.CreateOrder noFaults (Postgres.CreateOrder noFaults db o).db o2).db
        o.OrderUID = Postgres.GetOrder noFaults (Postgres.CreateOrder noFaults db o).db
        o.OrderUID ∧
      Postgres.GetOrder noFaults
        (Postgres.CreateOrder noFaults (Postgres.CreateOrder noFaults db o).db o2).db
        o.OrderUID = .ok { o with DateCreated := o.DateCreated.truncMicro } ∧
      (o.DateCreated.unixNano % 1000 = 0 →
        Postgres.GetOrder noFaults
          (Postgres.CreateOrder noFaults (Postgres.CreateOrder noFaults db o).db o2).db
          o.OrderUID = .ok o) := by
  obtain ⟨hok, hget⟩ :=
    Postgres.CreateOrder_then_GetOrder db o hwf hv hnew (by rw [hfree]; simp)
  obtain ⟨_, _, rows, _, _, ht, _, _⟩ := Postgres.CreateOrder_ok_shape noFaults db o hok
  have hdup : ∃ r ∈ (Postgres.CreateOrder noFaults db o).db.tables.orders,
      r.order_uid = o2.OrderUID := by
    rw [ht]
    exact ⟨Postgres.orderRow o ((db.seqs.delivery + 1 : Nat) : Int)
      ((db.seqs.payment + 1 : Nat) : Int), by simp, by simp [Postgres.orderRow, hid]⟩
  have herr : (Postgres.CreateOrder noFaults (Postgres.CreateOrder noFaults db o).db o2).err =
      some (.wrapf "order creation error: "
        (.wrapf "" (.sentinel .ErrOrderExists) ": violation of uniqueness") "") := by
    rw [Postgres.CreateOrder_begun noFaults _ o2 hv2.1 rfl]
    exact (Postgres.createOrderBody_noFaults_dup _ o2 hv2 hdup).1
  have hsame := Postgres.GetOrder_congr noFaults _ _ o.OrderUID
    (Postgres.CreateOrder_err_tables noFaults _ o2 (by rw [herr]; simp))
  refine ⟨hok, _, herr, by decide, hsame, hsame.trans hget, fun hwhole => ?_⟩
  rw [hsame, hget, Time.truncMicro_of_whole o.DateCreated hwhole]

/-- The second-create property at the sample order, dated in whole
microseconds and created twice in the empty store. -/
theorem CreateOrder_twice_witness :
    DB.empty.WF ∧ sampleOrder.Valid ∧ ¬ DB.empty.hasOrder sampleOrder.OrderUID ∧
    DB.empty.held = [] ∧
    ((Postgres.CreateOrder noFaults DB.empty sampleOrder).err = none ∧
    ∃ e, (Postgres.CreateOrder noFaults
        (Postgres.CreateOrder noFaults DB.empty sampleOrder).db sampleOrder).err = some e ∧
      e.Is .ErrOrderExists = true ∧
      Postgres.GetOrder noFaults
        (Postgres.CreateOrder noFaults
          (Postgres.CreateOrder noFaults DB.empty sampleOrder).db sampleOrder).db
        sampleOrder.OrderUID = .ok sampleOrder) :=
  ⟨by decide, by decide, by decide, by decide,
    (CreateOrder_twice DB.empty sampleOrder sampleOrder (by decide) (by decide) (by decide)
      (by decide) (by decide) rfl).1,
    (CreateOrder_twice DB.empty sampleOrder sampleOrder (by decide) (by decide) (by decide)
      (by decide) (by decide) rfl).2.imp
      (fun _ h => ⟨h.1, h.2.1, h.2.2.2.2 (by decide)⟩)⟩

/-- C6, amended: with a fault-free engine, for every non-empty order identifier
that matches no `orders` row, `GetOrder` fails with an error of kind
not-found. -/
theorem GetOrder_notFound (db : DB) (orderUID : String) (hu : orderUID ≠ "")
    (h : ¬ db.hasOrder orderUID) :
    ∃ e, Postgres.GetOrder noFaults db orderUID = .error e ∧ e.Is .ErrOrderNotFound = true := by
  have hnone : db.tables.orders.find? (fun r => decide (r.order_uid = orderUID)) = none := by
    rw [List.find?_eq_none]
    intro r hr
    have : r.order_uid ≠ orderUID := fun he => h ⟨r, hr, he⟩
    simpa using this
  refine ⟨.wrapf "order retrieval error: " (.sentinel .ErrOrderNotFound) "", ?_, by decide⟩
  unfold Postgres.GetOrder Postgres.queryRowOrder
  simp only [hu, if_false, noFaults, hnone]
  rfl

/-- The not-found property at the identifier `order-1` in the empty store. -/
theorem GetOrder_notFound_witness :
    "order-1" ≠ "" ∧ ¬ DB.empty.hasOrder "order-1" ∧
    ∃ e, Postgres.GetOrder noFaults DB.empty "order-1" = .error e ∧
      e.Is .ErrOrderNotFound = true :=
  ⟨by decide, by decide, GetOrder_notFound DB.empty "order-1" (by decide) (by decide)⟩

/-- C6 as stated fails at the empty identifier: it matches no `orders` row of
the empty store, and `GetOrder` fails with an error of kind invalid-data that
is not of kind not-found. -/
theorem GetOrder_empty_uid_not_notFound :
    ¬ DB.empty.hasOrder "" ∧
    ∃ e, Postgres.GetOrder noFaults DB.empty "" = .error e ∧
      e.Is .ErrOrderNotFound = false ∧ e.Is .ErrInvalidData = true :=
  ⟨by decide, _, rfl, by decide, by decide⟩

/-- The sample order with the name of its second item emptied fails
required-field validation. -/
theorem badItemOrder_invalid :
    ¬ ({ sampleOrder with Items := [sampleItem, { sampleItem with Name := "" }] } : Order).Valid := by
  decide

/-- C2 fails at the item stage: for a new order whose second item has an empty
name, `CreateOrder` returns an error after the delivery, payment, order and
first item inserts, and `Rollback` is not among the engine calls it made. -/
theorem CreateOrder_item_failure_no_rollback :
    (Postgres.CreateOrder noFaults DB.empty
      { sampleOrder with Items := [sampleItem, { sampleItem with Name := "" }] }).err ≠ none ∧
    (Postgres.CreateOrder noFaults DB.empty
      { sampleOrder with Items := [sampleItem, { sampleItem with Name := "" }] }).trace =
      [.begin, .insertDelivery, .insertPayment, .insertOrder, .insertItem 0] ∧
    Call.rollback ∉ (Postgres.CreateOrder noFaults DB.empty
      { sampleOrder with Items := [sampleItem, { sampleItem with Name := "" }] }).trace := by
  decide

/-- C3 fails at an empty delivery name: `CreateOrder` returns an error that is
of kind database-error and not of kind invalid-data. -/
theorem CreateOrder_empty_name_kind :
    ∃ e, (Postgres.CreateOrder noFaults DB.empty
        { sampleOrder with Delivery := { sampleDelivery with Name := "" } }).err = some e ∧
      e.Is .ErrInvalidData = false ∧ e.Is .ErrDatabaseError = true ∧
      e.Error = "delivery creation error: database error: invalid data: recipient name is required" :=
  ⟨_, rfl, by decide, by decide, by decide⟩

/-- C4, amended: for every order that fails required-field validation and every
fault plan, `CreateOrder` returns an error, leaves the committed rows as they
were and never reaches `Commit`; with an empty order identifier it makes no
engine call at all; with a non-empty identifier it opens the transaction
first, and then an invalid delivery is rejected before any insert and an
invalid payment after no insert other than the delivery insert. -/
theorem CreateOrder_invalid (f : Faults) (db : DB) (o : Order) (h : ¬ o.Valid) :
    (Postgres.CreateOrder f db o).err ≠ none ∧
    (Postgres.CreateOrder f db o).db.tables = db.tables ∧
    Call.commit ∉ (Postgres.CreateOrder f db o).trace ∧
    (o.OrderUID = "" → (Postgres.CreateOrder f db o).trace = []) ∧
    (o.OrderUID ≠ "" → (Postgres.CreateOrder f db o).trace.head? = some .begin) ∧
    (¬ (o.Delivery.Name ≠ "" ∧ o.Delivery.Phone ≠ "") →
      ∀ c ∈ (Postgres.CreateOrder f db o).trace, c = .begin ∨ c = .rollback) ∧
    (¬ (o.Payment.Transaction ≠ "" ∧ o.Payment.Provider ≠ "" ∧ 0 < o.Payment.Amount) →
      ∀ c ∈ (Postgres.CreateOrder f db o).trace,
        c = .begin ∨ c = .insertDelivery ∨ c = .rollback) := by
  have herr : (Postgres.CreateOrder f db o).err ≠ none :=
    fun he => h (Postgres.CreateOrder_ok_shape f db o he).1
  refine ⟨herr, Postgres.CreateOrder_err_tables f db o herr, ?_⟩
  by_cases hu : o.OrderUID = ""
  · simp [Postgres.CreateOrder, hu]
  cases hb : f .begin with
  | some e => simp [Postgres.CreateOrder, hu, hb]
  | none =>
    rw [Postgres.CreateOrder_begun f db o hu hb]
    obtain ⟨_, _, _, htr, hdel, hpay, lpre, hpre⟩ :=
      Postgres.createOrderBody_any f ⟨db.tables, db.seqs, [.begin], db.held⟩ o
    generalize Postgres.createOrderBody f ⟨db.tables, db.seqs, [.begin], db.held⟩ o = r
      at htr hdel hpay hpre
    have hmem : ∀ c, c ∈ (if r.errVar.isSome = true then r.st.trace ++ [Call.rollback]
        else r.st.trace) → c ∈ r.st.trace ∨ c = .rollback := by
      intro c hc
      split at hc
      · simpa using hc
      · exact Or.inl hc
    refine ⟨?_, fun hu0 => absurd hu0 hu, ?_, ?_, ?_⟩
    · intro hc
      rcases hmem _ hc with hc | hc
      · rcases htr _ hc with h1 | h1 | h1 | h1 | h1 | h1
        · simp at h1
        · cases h1
        · cases h1
        · cases h1
        · obtain ⟨j, hj⟩ := h1; cases hj
        · exact h ⟨hu, h1.2.1.1, h1.2.1.2, h1.2.2.1.1, h1.2.2.1.2.1, h1.2.2.1.2.2, h1.2.2.2⟩
      · cases hc
    · intro _
      simp only
      have h0 : r.st.trace.head? = some .begin := by rw [hpre]; rfl
      split
      · cases hl : r.st.trace with
        | nil => rw [hl] at h0; simp at h0
        | cons a l => rw [hl] at h0; simpa using h0
      · exact h0
    · intro hdv c hc
      simp only at hc
      rcases hmem _ hc with hc | hc
      · rw [(hdel hdv).1] at hc
        left; simpa using hc
      · exact Or.inr hc
    · intro hpv c hc
      simp only at hc
      rcases hmem _ hc with hc | hc
      · rcases hpay hpv c hc with h1 | h1
        · left; simpa using h1
        · exact Or.inr (Or.inl h1)
      · exact Or.inr (Or.inr hc)

/-- The validation-order property at the sample order with an empty second
item name, a fault-free engine and the empty store. -/
theorem CreateOrder_invalid_witness :
    ¬ ({ sampleOrder with Items := [sampleItem, { sampleItem with Name := "" }] } : Order).Valid ∧
    ((Postgres.CreateOrder noFaults DB.empty
      { sampleOrder with Items := [sampleItem, { sampleItem with Name := "" }] }).err ≠ none ∧
    (Postgres.CreateOrder noFaults DB.empty
      { sampleOrder with Items := [sampleItem, { sampleItem with Name := "" }] }).db.tables =
      DB.empty.tables ∧
    Call.commit ∉ (Postgres.CreateOrder noFaults DB.empty
      { sampleOrder with Items := [sampleItem, { sampleItem with Name := "" }] }).trace) :=
  ⟨by decide,
    (CreateOrder_invalid noFaults DB.empty
      { sampleOrder with Items := [sampleItem, { sampleItem with Name := "" }] } (by decide)).1,
    (CreateOrder_invalid noFaults DB.empty
      { sampleOrder with Items := [sampleItem, { sampleItem with Name := "" }] } (by decide)).2.1,
    (CreateOrder_invalid noFaults DB.empty
      { sampleOrder with Items := [sampleItem, { sampleItem with Name := "" }] }
      (by decide)).2.2.1⟩


/-- C4 as stated fails at an order with a non-positive payment amount: it
fails required-field validation, yet `CreateOrder` opened a transaction and
issued the delivery insert before returning. -/
theorem CreateOrder_validation_after_insert :
    ¬ ({ sampleOrder with Payment := { samplePayment with Amount := 0 } } : Order).Valid ∧
    (Postgres.CreateOrder noFaults DB.empty
      { sampleOrder with Payment := { samplePayment with Amount := 0 } }).trace =
      [.begin, .insertDelivery, .rollback] := by
  decide

namespace Postgres

/-- A read that succeeds under a fault plan returns what the fault-free read
returns: `getDelivery`. -/
theorem getDelivery_ok (f : Faults) (t : Tables) (id : Int) (d : Delivery)
    (h : getDelivery f t id = .ok d) : getDelivery noFaults t id = .ok d := by
  unfold getDelivery at h ⊢
  by_cases hid : id ≤ 0
  · simp [hid] at h
  · simp only [hid, if_false] at h ⊢
    cases hf : f (.selectDelivery id) with
    | some e => simp [hf, retErr, checkPostgresError] at h
    | none => simpa [hf, noFaults] using h

/-- A read that succeeds under a fault plan returns what the fault-free read
returns: `getPayment`. -/
theorem getPayment_ok (f : Faults) (t : Tables) (id : Int) (p : Payment)
    (h : getPayment f t id = .ok p) : getPayment noFaults t id = .ok p := by
  unfold getPayment at h ⊢
  by_cases hid : id ≤ 0
  · simp [hid] at h
  · simp only [hid, if_false] at h ⊢
    cases hf : f (.selectPayment id) with
    | some e => simp [hf, retErr, checkPostgresError] at h
    | none => simpa [hf, noFaults] using h

/-- A scan loop that succeeds under a fault plan appended the items of the rows. -/
theorem scanItems_ok (f : Faults) (uid : String) :
    ∀ (rows : List ItemRow) (i : Nat) (items res : List Item),
      scanItems f uid rows i items = .ok res → res = items ++ rows.map (fun r => r.item) := by
  intro rows
  induction rows with
  | nil => intro i items res h; simpa [scanItems] using h.symm
  | cons r rest ih =>
    intro i items res h
    rw [scanItems] at h
    cases hf : f (.scanItem uid i) with
    | some e => simp [hf] at h
    | none =>
      simp only [hf] at h
      rw [ih _ _ _ h]
      simp

/-- A read that succeeds under a fault plan returns what the fault-free read
returns: `getItemsByOrderUID`; the identifier is then not empty. -/
theorem getItemsByOrderUID_ok (f : Faults) (t : Tables) (uid : String) (items : List Item)
    (h : getItemsByOrderUID f t uid = .ok items) :
    uid ≠ "" ∧ getItemsByOrderUID noFaults t uid = .ok items := by
  by_cases hu : uid = ""
  · simp [getItemsByOrderUID, hu] at h
  refine ⟨hu, ?_⟩
  rw [getItemsByOrderUID_noFaults t uid hu]
  unfold getItemsByOrderUID at h
  simp only [hu, if_false] at h
  cases hq : f (.queryItems uid) with
  | some e => simp [hq] at h
  | none =>
    simp only [hq] at h
    cases hs : scanItems f uid (t.item.filter (fun r => decide (r.order_uid = uid))) 0 [] with
    | error e => simp [hs] at h
    | ok res =>
      simp only [hs] at h
      cases hi : f (.iterItems uid) with
      | some e => simp [hi] at h
      | none =>
        simp only [hi] at h
        have := scanItems_ok f uid _ _ _ _ hs
        simp only [List.nil_append] at this
        rw [← this]
        exact h

/-- A full scan that succeeds under a fault plan appended, for the rows in
table order, the order assembled from each row and its fault-free reads. -/
theorem scanOrders_ok (f : Faults) (t : Tables) :
    ∀ (rows : List OrderRow) (i : Nat) (acc res : List Order),
      scanOrders f t rows i acc = .ok res →
      ∃ os : List Order, res = acc ++ os ∧
        os.map (fun o => o.OrderUID) = rows.map (fun r => r.order_uid) ∧
        ∀ o ∈ os, ∃ row ∈ rows, ∃ d pay items, row.order_uid ≠ "" ∧
          getDelivery noFaults t row.delivery_id = .ok d ∧
          getPayment noFaults t row.payment_id = .ok pay ∧
          getItemsByOrderUID noFaults t row.order_uid = .ok items ∧
          o = assemble row d pay items := by
  intro rows
  induction rows with
  | nil =>
    intro i acc res h
    exact ⟨[], by simpa [scanOrders] using h.symm, rfl, by simp⟩
  | cons row rest ih =>
    intro i acc res h
    rw [scanOrders] at h
    cases hf : f (.scanOrder i) with
    | some e => simp [hf] at h
    | none =>
      simp only [hf] at h
      cases hd : getDelivery f t row.delivery_id with
      | error e => simp [hd] at h
      | ok d =>
        simp only [hd] at h
        cases hp : getPayment f t row.payment_id with
        | error e => simp [hp] at h
        | ok pay =>
          simp only [hp] at h
          cases hi : getItemsByOrderUID f t row.order_uid with
          | error e => simp [hi] at h
          | ok items =>
            simp only [hi] at h
            obtain ⟨os, hres, hmap, hall⟩ := ih _ _ _ h
            obtain ⟨hu, hi0⟩ := getItemsByOrderUID_ok f t _ _ hi
            refine ⟨assemble row d pay items :: os, by simp [hres], by simp [hmap, assemble], ?_⟩
            intro o ho
            rcases List.mem_cons.mp ho with ho | ho
            · exact ⟨row, List.mem_cons_self _ _, d, pay, items, hu,
                getDelivery_ok f t _ _ hd, getPayment_ok f t _ _ hp, hi0, ho⟩
            · obtain ⟨r, hr, rest0⟩ := hall o ho
              exact ⟨r, List.mem_cons_of_mem _ hr, rest0⟩

/-- In a list whose keys are pairwise different, searching for the key of a
member finds that member. -/
theorem find_of_nodup (l : List OrderRow) (r : OrderRow)
    (hnd : (l.map (fun x => x.order_uid)).Nodup) (hr : r ∈ l) :
    l.find? (fun x => decide (x.order_uid = r.order_uid)) = some r := by
  induction l with
  | nil => cases hr
  | cons a l ih =>
    rw [List.map_cons, List.nodup_cons] at hnd
    rcases List.mem_cons.mp hr with h | h
    · subst h; simp
    · have hne : a.order_uid ≠ r.order_uid := by
        intro he
        exact hnd.1 (he ▸ List.mem_map_of_mem _ h)
      rw [List.find?_cons_of_neg _ (by simpa using hne)]
      exact ih hnd.2 h

/-- When `GetOrders` succeeds on a store with `order_uid` a key, its result has
the identifiers of the `orders` rows, in table order, and each order of the
result is what the fault-free `GetOrder` returns for its identifier. -/
theorem GetOrders_ok (f : Faults) (db : DB) (orders : List Order)
    (hnd : (db.tables.orders.map (fun r => r.order_uid)).Nodup)
    (h : GetOrders f db = .ok orders) :
    orders.map (fun o => o.OrderUID) = db.tables.orders.map (fun r => r.order_uid) ∧
    ∀ o ∈ orders, GetOrder noFaults db o.OrderUID = .ok o := by
  unfold GetOrders at h
  cases hq : f .queryOrders with
  | some e => simp [hq] at h
  | none =>
    simp only [hq] at h
    cases hs : scanOrders f db.tables db.tables.orders 0 [] with
    | error e => simp [hs] at h
    | ok res =>
      simp only [hs] at h
      cases hi : f .iterOrders with
      | some e => simp [hi] at h
      | none =>
        simp only [hi] at h
        have hres : res = orders := by simpa using h
        subst hres
        obtain ⟨os, hos, hmap, hall⟩ := scanOrders_ok f db.tables _ _ _ _ hs
        simp only [List.nil_append] at hos
        subst hos
        refine ⟨hmap, ?_⟩
        intro o ho
        obtain ⟨row, hrow, d, pay, items, hu, hd, hp, hit, ho2⟩ := hall o ho
        have hk : o.OrderUID = row.order_uid := by rw [ho2]; rfl
        unfold GetOrder
        rw [hk]
        simp only [hu, if_false]
        have hq2 : queryRowOrder noFaults db.tables row.order_uid = .ok row := by
          unfold queryRowOrder
          simp only [noFaults, find_of_nodup _ row hnd hrow]
        simp only [hq2, hd, hp, hit]
        rw [ho2]

end Postgres

/-- Looking up a key just written returns the written order. -/
theorem cacheGet_cachePut_same (c : Cache) (k : String) (v : Order) :
    cacheGet (cachePut c k v) k = some v := by
  simp [cacheGet, cachePut]

/-- Writing a key leaves the lookups of other keys as they were. -/
theorem cacheGet_cachePut_other (c : Cache) (k k1 : String) (v : Order) (h : k ≠ k1) :
    cacheGet (cachePut c k v) k1 = cacheGet c k1 := by
  unfold cacheGet cachePut
  rw [List.find?_cons_of_neg _ (by simpa using h)]
  congr 1
  induction c with
  | nil => rfl
  | cons a c ih =>
    by_cases ha : a.1 = k
    · have hne : ¬ a.1 = k1 := fun h1 => h (ha.symm.trans h1)
      rw [List.filter_cons_of_neg (by simp [ha]), List.find?_cons_of_neg _ (by simpa using hne)]
      exact ih
    · rw [List.filter_cons_of_pos (by simp [ha])]
      by_cases hb : a.1 = k1
      · rw [List.find?_cons_of_pos _ (by simpa using hb),
          List.find?_cons_of_pos _ (by simpa using hb)]
      · rw [List.find?_cons_of_neg _ (by simpa using hb),
          List.find?_cons_of_neg _ (by simpa using hb)]
        exact ih

/-- After the warming loop, a key all of whose orders in the loaded list are
one order, and that occurs in the list, maps to that order. -/
theorem cacheGet_foldl (orders : List Order) (k : String) (v : Order) :
    ∀ c : Cache, (∀ o ∈ orders, o.OrderUID = k → o = v) →
      ((∃ o ∈ orders, o.OrderUID = k) ∨ cacheGet c k = some v) →
      cacheGet (orders.foldl (fun c o => cachePut c o.OrderUID o) c) k = some v := by
  induction orders with
  | nil =>
    intro c _ h
    rcases h with ⟨o, ho, _⟩ | h
    · cases ho
    · exact h
  | cons a rest ih =>
    intro c hall h
    rw [List.foldl_cons]
    apply ih
    · exact fun o ho => hall o (List.mem_cons_of_mem _ ho)
    · by_cases hak : a.OrderUID = k
      · right
        have := hall a (List.mem_cons_self _ _) hak
        rw [hak, this]
        exact cacheGet_cachePut_same _ _ _
      · rcases h with ⟨o, ho, hok⟩ | h
        · rcases List.mem_cons.mp ho with h1 | h1
          · exact absurd (h1 ▸ hok) hak
          · exact Or.inl ⟨o, h1, hok⟩
        · right
          rw [cacheGet_cachePut_other _ _ _ _ hak]
          exact h

/-- C8: after a successful `NewService` on a well-formed store, for every
identifier that has an `orders` row at warm time, `Service.GetOrder` returns
the order that the store holds for it, makes no repository call, and leaves
the service, cache included, as it was. -/
theorem NewService_then_GetOrder (f : Faults) (db : DB) (s : Service) (hwf : db.WF)
    (hs : Service.NewService f db = .ok s) (orderUID : String) (hpres : db.hasOrder orderUID) :
    ∃ o, Postgres.GetOrder noFaults db orderUID = .ok o ∧
      ∀ f2 : Faults, Service.GetOrder f2 s orderUID = ⟨some o, none, s, []⟩ := by
  unfold Service.NewService Service.RestoreCache Repository.GetAllOrders at hs
  cases hg : Postgres.GetOrders f db with
  | error e => simp [hg] at hs
  | ok orders =>
    simp only [hg] at hs
    have hs2 : s = ⟨db, orders.foldl (fun c o => cachePut c o.OrderUID o) []⟩ := by
      simpa using hs.symm
    obtain ⟨hmap, hall⟩ := Postgres.GetOrders_ok f db orders hwf.2.2.2 hg
    obtain ⟨r, hr, hre⟩ := hpres
    have hmem : orderUID ∈ orders.map (fun o => o.OrderUID) := by
      rw [hmap, ← hre]
      exact List.mem_map_of_mem _ hr
    obtain ⟨o, ho, hok⟩ := List.mem_map.mp hmem
    have hget : Postgres.GetOrder noFaults db orderUID = .ok o := by
      rw [← hok]; exact hall o ho
    have hcache : cacheGet s.cache orderUID = some o := by
      rw [hs2]
      apply cacheGet_foldl
      · intro o2 ho2 hk
        have h2 := hall o2 ho2
        rw [hk, hget] at h2
        exact (Except.ok.inj h2).symm
      · exact Or.inl ⟨o, ho, hok⟩
    refine ⟨o, hget, fun f2 => ?_⟩
    unfold Service.GetOrder
    simp only [hcache]

/-- The warm-read property at the store that holds the sample order. -/
theorem NewService_then_GetOrder_witness :
    (Postgres.CreateOrder noFaults DB.empty sampleOrder).db.WF ∧
    Service.NewService noFaults (Postgres.CreateOrder noFaults DB.empty sampleOrder).db =
      .ok ⟨(Postgres.CreateOrder noFaults DB.empty sampleOrder).db,
        [("order-1", sampleOrder)]⟩ ∧
    (Postgres.CreateOrder noFaults DB.empty sampleOrder).db.hasOrder "order-1" ∧
    ∃ o, Postgres.GetOrder noFaults (Postgres.CreateOrder noFaults DB.empty sampleOrder).db
        "order-1" = .ok o ∧
      ∀ f2 : Faults, Service.GetOrder f2
        ⟨(Postgres.CreateOrder noFaults DB.empty sampleOrder).db, [("order-1", sampleOrder)]⟩
        "order-1" =
        ⟨some o, none,
          ⟨(Postgres.CreateOrder noFaults DB.empty sampleOrder).db, [("order-1", sampleOrder)]⟩,
          []⟩ :=
  ⟨by decide, rfl, by decide,
    NewService_then_GetOrder noFaults (Postgres.CreateOrder noFaults DB.empty sampleOrder).db
      ⟨(Postgres.CreateOrder noFaults DB.empty sampleOrder).db, [("order-1", sampleOrder)]⟩
      (by decide) rfl "order-1" (by decide)⟩

/-- C9: when the identifier is absent from the cache and the store read
succeeds, `Service.GetOrder` returns the order of the store after one
repository call and caches it under the identifier, so that the next
`Service.GetOrder` with the same identifier returns the same order with no
repository call and no further change. -/
theorem Service_GetOrder_miss_then_hit (f : Faults) (s : Service) (orderUID : String)
    (o : Order) (hmiss : cacheGet s.cache orderUID = none)
    (hstore : Repository.GetOrder f s.repo orderUID = .ok o) :
    Service.GetOrder f s orderUID =
      ⟨some o, none, ⟨s.repo, cachePut s.cache orderUID o⟩, [.GetOrder orderUID]⟩ ∧
    cacheGet (Service.GetOrder f s orderUID).svc.cache orderUID = some o ∧
    ∀ f2 : Faults, Service.GetOrder f2 (Service.GetOrder f s orderUID).svc orderUID =
      ⟨some o, none, (Service.GetOrder f s orderUID).svc, []⟩ := by
  have h1 : Service.GetOrder f s orderUID =
      ⟨some o, none, ⟨s.repo, cachePut s.cache orderUID o⟩, [.GetOrder orderUID]⟩ := by
    unfold Service.GetOrder
    simp only [hmiss, hstore]
  refine ⟨h1, ?_, fun f2 => ?_⟩
  · rw [h1]; exact cacheGet_cachePut_same _ _ _
  · rw [h1]
    unfold Service.GetOrder
    simp only [cacheGet_cachePut_same]

/-- The miss-then-hit property at an empty cache over the store that holds the
sample order. -/
theorem Service_GetOrder_miss_then_hit_witness :
    cacheGet ([] : Cache) "order-1" = none ∧
    Repository.GetOrder noFaults (Postgres.CreateOrder noFaults DB.empty sampleOrder).db
      "order-1" = .ok sampleOrder ∧
    cacheGet (Service.GetOrder noFaults
      ⟨(Postgres.CreateOrder noFaults DB.empty sampleOrder).db, []⟩ "order-1").svc.cache
      "order-1" = some sampleOrder :=
  ⟨rfl, rfl, (Service_GetOrder_miss_then_hit noFaults
    ⟨(Postgres.CreateOrder noFaults DB.empty sampleOrder).db, []⟩ "order-1" sampleOrder
    rfl rfl).2.1⟩

/-- C10: when the identifier is absent from the cache and the store read
fails, `Service.GetOrder` returns no order and exactly the error of the store,
after one repository call, and leaves the service, cache included, as it
was. -/
theorem Service_GetOrder_miss_error (f : Faults) (s : Service) (orderUID : String)
    (e : GoError) (hmiss : cacheGet s.cache orderUID = none)
    (hstore : Repository.GetOrder f s.repo orderUID = .error e) :
    Service.GetOrder f s orderUID = ⟨none, some e, s, [.GetOrder orderUID]⟩ := by
  unfold Service.GetOrder
  simp only [hmiss, hstore]

/-- The miss-and-fail property at the empty store: the not-found error of the
store comes back unchanged. -/
theorem Service_GetOrder_miss_error_witness :
    cacheGet ([] : Cache) "order-1" = none ∧
    Repository.GetOrder noFaults DB.empty "order-1" =
      .error (.wrapf "order retrieval error: " (.sentinel .ErrOrderNotFound) "") ∧
    Service.GetOrder noFaults ⟨DB.empty, []⟩ "order-1" =
      ⟨none, some (.wrapf "order retrieval error: " (.sentinel .ErrOrderNotFound) ""),
        ⟨DB.empty, []⟩, [.GetOrder "order-1"]⟩ :=
  ⟨rfl, rfl, Service_GetOrder_miss_error noFaults ⟨DB.empty, []⟩ "order-1" _ rfl rfl⟩

namespace Postgres

/-- A successful `GetOrder` found an `orders` row with the identifier. -/
theorem GetOrder_ok_hasOrder (f : Faults) (db : DB) (uid : String) (o : Order)
    (h : GetOrder f db uid = .ok o) : db.hasOrder uid := by
  unfold GetOrder at h
  by_cases hu : uid = ""
  · simp [hu] at h
  simp only [hu, if_false] at h
  cases hq : queryRowOrder f db.tables uid with
  | error e => simp [hq] at h
  | ok row =>
    unfold queryRowOrder at hq
    cases hf : f (.selectOrder uid) with
    | some e => simp [hf] at hq
    | none =>
      simp only [hf] at hq
      cases hfind : db.tables.orders.find? (fun r => decide (r.order_uid = uid)) with
      | none => simp [hfind] at hq
      | some r =>
        exact ⟨r, List.mem_of_find?_eq_some hfind, by simpa using List.find?_some hfind⟩

/-- Rows of `orders` are never removed by `CreateOrder`. -/
theorem CreateOrder_hasOrder_mono (f : Faults) (db : DB) (o : Order) (k : String)
    (h : db.hasOrder k) : (CreateOrder f db o).db.hasOrder k := by
  obtain ⟨r, hr, hk⟩ := h
  cases he : (CreateOrder f db o).err with
  | some e =>
    refine ⟨r, ?_, hk⟩
    rw [CreateOrder_err_tables f db o (by simp [he])]
    exact hr
  | none =>
    obtain ⟨_, _, rows, _, _, ht, _, _⟩ := CreateOrder_ok_shape f db o he
    refine ⟨r, ?_, hk⟩
    rw [ht]
    exact List.mem_append_left _ hr

/-- A successful `CreateOrder` committed an `orders` row with the identifier of
the order. -/
theorem CreateOrder_ok_hasOrder (f : Faults) (db : DB) (o : Order)
    (he : (CreateOrder f db o).err = none) : (CreateOrder f db o).db.hasOrder o.OrderUID := by
  obtain ⟨_, _, rows, _, _, ht, _, _⟩ := CreateOrder_ok_shape f db o he
  refine ⟨orderRow o ((db.seqs.delivery + 1 : Nat) : Int) ((db.seqs.payment + 1 : Nat) : Int),
    ?_, rfl⟩
  rw [ht]
  simp

/-- The orders that a successful `GetOrders` returns carry the identifiers of
the `orders` rows. -/
theorem GetOrders_uids (f : Faults) (db : DB) (orders : List Order)
    (h : GetOrders f db = .ok orders) :
    orders.map (fun o => o.OrderUID) = db.tables.orders.map (fun r => r.order_uid) := by
  unfold GetOrders at h
  cases hq : f .queryOrders with
  | some e => simp [hq] at h
  | none =>
    simp only [hq] at h
    cases hs : scanOrders f db.tables db.tables.orders 0 [] with
    | error e => simp [hs] at h
    | ok res =>
      simp only [hs] at h
      cases hi : f .iterOrders with
      | some e => simp [hi] at h
      | none =>
        simp only [hi] at h
        have hres : res = orders := by simpa using h
        subst hres
        obtain ⟨os, hos, hmap, _⟩ := scanOrders_ok f db.tables _ _ _ _ hs
        simp only [List.nil_append] at hos
        subst hos
        exact hmap

end Postgres

/-- An entry of a cache after a write is the written entry or an old entry. -/
theorem mem_cachePut (c : Cache) (k : String) (v : Order) (e : String × Order)
    (h : e ∈ cachePut c k v) : e = (k, v) ∨ e ∈ c := by
  unfold cachePut at h
  rcases List.mem_cons.mp h with h | h
  · exact Or.inl h
  · exact Or.inr (List.mem_filter.mp h).1

namespace Service

/-- The warming loop keeps the cache backed when every loaded order has a row. -/
theorem foldl_cachePut_backed (db : DB) (orders : List Order)
    (horders : ∀ o ∈ orders, db.hasOrder o.OrderUID) :
    ∀ c : Cache, (∀ e ∈ c, db.hasOrder e.1) →
      ∀ e ∈ orders.foldl (fun c o => cachePut c o.OrderUID o) c, db.hasOrder e.1 := by
  induction orders with
  | nil => intro c hc; simpa using hc
  | cons a rest ih =>
    intro c hc
    rw [List.foldl_cons]
    apply ih (fun o ho => horders o (List.mem_cons_of_mem _ ho))
    intro e he
    rcases mem_cachePut _ _ _ _ he with h | h
    · rw [h]; exact horders a (List.mem_cons_self _ _)
    · exact hc e h

/-- The method `RestoreCache` keeps the cache backed. -/
theorem RestoreCache_backed (f : Faults) (s : Service) (h : s.cacheBacked) :
    (RestoreCache f s).svc.cacheBacked := by
  unfold RestoreCache Repository.GetAllOrders
  cases hg : Postgres.GetOrders f s.repo with
  | error e => exact h
  | ok orders =>
    have hu := Postgres.GetOrders_uids f s.repo orders hg
    apply foldl_cachePut_backed s.repo orders _ s.cache h
    intro o ho
    have hm : o.OrderUID ∈ s.repo.tables.orders.map (fun r => r.order_uid) := by
      rw [← hu]; exact List.mem_map_of_mem _ ho
    obtain ⟨r, hr, hre⟩ := List.mem_map.mp hm
    exact ⟨r, hr, hre⟩

/-- The method `Service.GetOrder` keeps the cache backed. -/
theorem GetOrder_backed (f : Faults) (s : Service) (uid : String) (h : s.cacheBacked) :
    (GetOrder f s uid).svc.cacheBacked := by
  unfold GetOrder
  cases hc : cacheGet s.cache uid with
  | some o => exact h
  | none =>
    unfold Repository.GetOrder
    cases hg : Postgres.GetOrder f s.repo uid with
    | error e => exact h
    | ok o =>
      intro e he
      rcases mem_cachePut _ _ _ _ he with h1 | h1
      · rw [h1]; exact Postgres.GetOrder_ok_hasOrder f s.repo uid o hg
      · exact h e h1

/-- The method `Service.CreateOrder` keeps the cache backed. -/
theorem CreateOrder_backed (f : Faults) (s : Service) (o : Order) (h : s.cacheBacked) :
    (CreateOrder f s o).svc.cacheBacked := by
  cases he : (Postgres.CreateOrder f s.repo o).err with
  | some e =>
    have hs : (CreateOrder f s o).svc = ⟨(Postgres.CreateOrder f s.repo o).db, s.cache⟩ := by
      simp [CreateOrder, Repository.CreateOrder, he]
    rw [hs]
    intro x hx
    exact Postgres.CreateOrder_hasOrder_mono f s.repo o _ (h x hx)
  | none =>
    have hs : (CreateOrder f s o).svc =
        ⟨(Postgres.CreateOrder f s.repo o).db, cachePut s.cache o.OrderUID o⟩ := by
      simp [CreateOrder, Repository.CreateOrder, he]
    rw [hs]
    intro x hx
    rcases mem_cachePut _ _ _ _ hx with h1 | h1
    · rw [h1]; exact Postgres.CreateOrder_ok_hasOrder f s.repo o he
    · exact Postgres.CreateOrder_hasOrder_mono f s.repo o _ (h x h1)

/-- Every call keeps the cache backed. -/
theorem run_backed (ops : List Op) : ∀ s : Service, s.cacheBacked → (run s ops).cacheBacked := by
  induction ops with
  | nil => intro s h; exact h
  | cons op rest ih =>
    intro s h
    unfold run
    rw [List.foldl_cons]
    apply ih
    cases op with
    | RestoreCache f => exact RestoreCache_backed f s h
    | GetOrder f uid => exact GetOrder_backed f s uid h
    | CreateOrder f o => exact CreateOrder_backed f s o h

end Service

/-- C11: in every state reached from a successful `NewService` by any sequence
of `RestoreCache`, `GetOrder` and `CreateOrder` calls, under any fault plans,
every identifier in the cache has a committed `orders` row; and
`Service.CreateOrder` leaves the cache as it was and returns the error of the
store when the store's `CreateOrder` fails, and writes the order to the cache
when it succeeded, the row being committed by then. -/
theorem cache_backed_reachable (f0 : Faults) (db : DB) (s : Service) (ops : List Service.Op)
    (h : Service.NewService f0 db = .ok s) :
    (Service.run s ops).cacheBacked ∧
    ∀ (f : Faults) (s1 : Service) (o : Order),
      ((Repository.CreateOrder f s1.repo o).err ≠ none →
        (Service.CreateOrder f s1 o).svc.cache = s1.cache ∧
        (Service.CreateOrder f s1 o).err = (Repository.CreateOrder f s1.repo o).err) ∧
      ((Repository.CreateOrder f s1.repo o).err = none →
        (Service.CreateOrder f s1 o).err = none ∧
        (Service.CreateOrder f s1 o).svc.cache = cachePut s1.cache o.OrderUID o ∧
        (Service.CreateOrder f s1 o).svc.repo.hasOrder o.OrderUID) := by
  constructor
  · apply Service.run_backed
    unfold Service.NewService at h
    cases he : (Service.RestoreCache f0 ⟨db, []⟩).err with
    | some e => simp [he] at h
    | none =>
      simp only [he] at h
      have hs : s = (Service.RestoreCache f0 ⟨db, []⟩).svc := by simpa using h.symm
      rw [hs]
      apply Service.RestoreCache_backed
      intro e he2
      cases he2
  · intro f s1 o
    constructor
    · intro hne
      unfold Service.CreateOrder
      cases he : (Repository.CreateOrder f s1.repo o).err with
      | none => exact absurd he hne
      | some e => simp [he]
    · intro he
      have hs : Service.CreateOrder f s1 o =
          ⟨none, ⟨(Repository.CreateOrder f s1.repo o).db, cachePut s1.cache o.OrderUID o⟩,
            [.CreateOrder o.OrderUID]⟩ := by
        simp [Service.CreateOrder, he]
      rw [hs]
      exact ⟨rfl, rfl, Postgres.CreateOrder_ok_hasOrder f s1.repo o he⟩

/-- The cache invariant after creating the sample order in the empty store and
reading it back through the service. -/
theorem cache_backed_reachable_witness :
    Service.NewService noFaults DB.empty = .ok ⟨DB.empty, []⟩ ∧
    (Service.run ⟨DB.empty, []⟩
      [.CreateOrder noFaults sampleOrder, .GetOrder noFaults "order-1"]).cacheBacked :=
  ⟨rfl, (cache_backed_reachable noFaults DB.empty ⟨DB.empty, []⟩
    [.CreateOrder noFaults sampleOrder, .GetOrder noFaults "order-1"] rfl).1⟩

/-- C12 fails in `main`: when the query of the full load fails, `NewService`
returns an error and no service, yet the start-up goes on and starts the
consumer goroutine and the HTTP server with a nil service. -/
theorem main_started_after_failed_warm :
    (∃ e, Service.NewService warmFault DB.empty = .error e) ∧
    main none (.ok DB.empty) warmFault = .started none :=
  ⟨⟨_, rfl⟩, rfl⟩

/-- An error wraps at most one sentinel. -/
theorem GoError.Is_unique (e : GoError) (a b : Sentinel) (ha : e.Is a = true)
    (hb : e.Is b = true) : a = b := by
  induction e with
  | sentinel s =>
    simp only [GoError.Is, decide_eq_true_eq] at ha hb
    exact ha.symm.trans hb
  | pgError c m => simp [GoError.Is] at ha
  | other t => simp [GoError.Is] at ha
  | wrapf p inner q ih => exact ih ha hb

namespace Consumer

/-- A read error that is a timeout is not a cancellation. -/
theorem cancels_of_deadline (err : GoError) (h : err.Is .DeadlineExceeded = true) :
    (Tick.failure err).cancels = false := by
  cases hc : err.Is .Canceled with
  | false => simpa [Tick.cancels] using hc
  | true => exact absurd (GoError.Is_unique err _ _ h hc) (by decide)

/-- One turn that does not cancel leaves the exit of `ConsumeOrders` to the
rest of the script. -/
theorem ConsumeOrders_exit_cons (unmarshal : String → Except GoError Order)
    (handler : Order → Option GoError) (t : Tick) (rest : List Tick) (h : t.cancels = false) :
    (ConsumeOrders unmarshal handler (t :: rest)).exit =
      (ConsumeOrders unmarshal handler rest).exit := by
  cases t with
  | ctxDone c => simp [Tick.cancels] at h
  | failure err =>
    have hc : err.Is .Canceled = false := by simpa [Tick.cancels] using h
    rw [ConsumeOrders]
    simp only [hc]
    split <;> simp
  | message value =>
    rw [ConsumeOrders]
    cases unmarshal value with
    | error e => rfl
    | ok order => cases hh : handler order <;> simp [hh]

/-- At a turn that cancels, `ConsumeOrders` returns the error of that turn and
does not invoke the handler. -/
theorem ConsumeOrders_cancel (unmarshal : String → Except GoError Order)
    (handler : Order → Option GoError) (t : Tick) (rest : List Tick) (h : t.cancels = true) :
    (ConsumeOrders unmarshal handler (t :: rest)).handled = [] ∧
    ((∃ c, t = .ctxDone c ∧
        (ConsumeOrders unmarshal handler (t :: rest)).exit = .returned (some c.err)) ∨
      (∃ e, t = .failure e ∧ e.Is .Canceled = true ∧
        (ConsumeOrders unmarshal handler (t :: rest)).exit = .returned (some e))) := by
  cases t with
  | ctxDone c => exact ⟨rfl, Or.inl ⟨c, rfl, rfl⟩⟩
  | failure err =>
    have hc : err.Is .Canceled = true := by simpa [Tick.cancels] using h
    have hd : err.Is .DeadlineExceeded = false := by
      cases hd : err.Is .DeadlineExceeded with
      | false => rfl
      | true => exact absurd (GoError.Is_unique err _ _ hd hc) (by decide)
    have he : ConsumeOrders unmarshal handler (.failure err :: rest) =
        ⟨.returned (some err), []⟩ := by
      rw [ConsumeOrders]
      simp [hc, hd]
    rw [he]
    exact ⟨rfl, Or.inr ⟨err, rfl, hc, rfl⟩⟩
  | message value => simp [Tick.cancels] at h

end Consumer

/-- C13: for every script of read outcomes, every decoder and every handler,
`ConsumeOrders` is still looping at the end of the script exactly when no turn
observed cancellation, whatever timeouts, other read failures, payloads that
fail to deserialize and handler failures occurred; when it returns, it
returns at the first turn that observes cancellation, with the non-nil error
of the context or the read error wrapping `context.Canceled`; it never
panics. -/
theorem ConsumeOrders_returns_only_on_cancel (unmarshal : String → Except GoError Order)
    (handler : Order → Option GoError) (ticks : List Tick) :
    ((Consumer.ConsumeOrders unmarshal handler ticks).exit = .running ↔
      ∀ t ∈ ticks, t.cancels = false) ∧
    (∀ v, (Consumer.ConsumeOrders unmarshal handler ticks).exit = .returned v →
      ∃ pre t post, ticks = pre ++ t :: post ∧ (∀ x ∈ pre, x.cancels = false) ∧
        ((∃ c, t = .ctxDone c ∧ v = some c.err) ∨
          (∃ e, t = .failure e ∧ e.Is .Canceled = true ∧ v = some e))) ∧
    (Consumer.ConsumeOrders unmarshal handler ticks).exit ≠ .panicked := by
  induction ticks with
  | nil =>
    refine ⟨by simp [Consumer.ConsumeOrders], ?_, by simp [Consumer.ConsumeOrders]⟩
    intro v hv
    simp [Consumer.ConsumeOrders] at hv
  | cons t rest ih =>
    obtain ⟨ih1, ih2, ih3⟩ := ih
    cases hc : t.cancels with
    | false =>
      rw [Consumer.ConsumeOrders_exit_cons unmarshal handler t rest hc]
      refine ⟨?_, ?_, ih3⟩
      · rw [ih1]
        constructor
        · intro h x hx
          rcases List.mem_cons.mp hx with h1 | h1
          · rw [h1]; exact hc
          · exact h x h1
        · intro h x hx
          exact h x (List.mem_cons_of_mem _ hx)
      · intro v hv
        obtain ⟨pre, x, post, heq, hpre, hx⟩ := ih2 v hv
        refine ⟨t :: pre, x, post, by rw [heq]; rfl, ?_, hx⟩
        intro y hy
        rcases List.mem_cons.mp hy with h1 | h1
        · rw [h1]; exact hc
        · exact hpre y h1
    | true =>
      obtain ⟨_, hexit⟩ := Consumer.ConsumeOrders_cancel unmarshal handler t rest hc
      refine ⟨?_, ?_, ?_⟩
      · constructor
        · intro h
          rcases hexit with ⟨c, _, he⟩ | ⟨e, _, _, he⟩ <;> rw [he] at h <;> cases h
        · intro h
          have := h t (List.mem_cons_self _ _)
          rw [hc] at this
          cases this
      · intro v hv
        refine ⟨[], t, rest, rfl, by simp, ?_⟩
        rcases hexit with ⟨c, ht, he⟩ | ⟨e, ht, hce, he⟩
        · rw [he] at hv
          exact Or.inl ⟨c, ht, (Exit.returned.inj hv).symm⟩
        · rw [he] at hv
          exact Or.inr ⟨e, ht, hce, (Exit.returned.inj hv).symm⟩
      · rcases hexit with ⟨c, _, he⟩ | ⟨e, _, _, he⟩ <;> rw [he] <;> simp

/-- C14: for every script, every decoder and every handler, the orders that
`ConsumeOrders` invokes the handler with are, in stream order and once each,
the orders deserialized from the messages read before the first turn that
observes cancellation; a read failure, a payload that fails to deserialize or
a failed handler call adds no invocation and no turn is taken twice. -/
theorem ConsumeOrders_handled (unmarshal : String → Except GoError Order)
    (handler : Order → Option GoError) (ticks : List Tick) :
    (Consumer.ConsumeOrders unmarshal handler ticks).handled =
      delivered unmarshal (ticks.takeWhile (fun t => !t.cancels)) := by
  induction ticks with
  | nil => rfl
  | cons t rest ih =>
    cases hc : t.cancels with
    | true =>
      rw [(Consumer.ConsumeOrders_cancel unmarshal handler t rest hc).1]
      simp [List.takeWhile, hc, delivered]
    | false =>
      have htw : (t :: rest).takeWhile (fun t => !t.cancels) =
          t :: rest.takeWhile (fun t => !t.cancels) := by
        simp [List.takeWhile, hc]
      rw [htw]
      cases t with
      | ctxDone c => simp [Tick.cancels] at hc
      | failure err =>
        have hce : err.Is .Canceled = false := by simpa [Tick.cancels] using hc
        have he : Consumer.ConsumeOrders unmarshal handler (.failure err :: rest) =
            Consumer.ConsumeOrders unmarshal handler rest := by
          rw [Consumer.ConsumeOrders]
          simp [hce]
        rw [he, ih]
        simp [delivered, Tick.order]
      | message value =>
        rw [Consumer.ConsumeOrders]
        cases hu : unmarshal value with
        | error e =>
          simp only [ih]
          simp [delivered, Tick.order, hu]
        | ok order =>
          cases hh : handler order <;> simp [hh, ih, delivered, Tick.order, hu]

/-- C16: for every outcome of `GetOrderResponse` on a non-empty identifier, the
handler answers 404 with status `error` and message `order not found` when the
error wraps the not-found error at any depth, 500 with status `error` and the
fixed message `internal server error` for every other error, whatever it is,
and 200 with status `ok` and the order as data on success; the not-found code
differs from the code of every other failure. -/
theorem Handler_GetOrder_responses (svc : String → Except GoError OrderResponse)
    (orderUID : String) (h : orderUID ≠ "") :
    (∀ e, svc orderUID = .error e → e.Is .ErrOrderNotFound = true →
      Handler.GetOrder svc orderUID = (404, ⟨"error", "order not found", none⟩)) ∧
    (∀ e, svc orderUID = .error e → e.Is .ErrOrderNotFound = false →
      Handler.GetOrder svc orderUID = (500, ⟨"error", "internal server error", none⟩)) ∧
    (∀ r, svc orderUID = .ok r → Handler.GetOrder svc orderUID = (200, ⟨"ok", "", some r⟩)) ∧
    (∀ (svc2 : String → Except GoError OrderResponse) (e1 e2 : GoError),
      svc orderUID = .error e1 → svc2 orderUID = .error e2 →
      e1.Is .ErrOrderNotFound = true → e2.Is .ErrOrderNotFound = false →
      (Handler.GetOrder svc orderUID).1 ≠ (Handler.GetOrder svc2 orderUID).1) ∧
    (∀ (pre post : String) (e : GoError),
      (GoError.wrapf pre e post).Is .ErrOrderNotFound = e.Is .ErrOrderNotFound) := by
  refine ⟨?_, ?_, ?_, ?_, fun _ _ _ => rfl⟩
  · intro e he hn
    simp [Handler.GetOrder, h, he, hn]
  · intro e he hn
    simp [Handler.GetOrder, h, he, hn]
  · intro r hr
    simp [Handler.GetOrder, h, hr]
  · intro svc2 e1 e2 h1 h2 hn1 hn2
    simp [Handler.GetOrder, h, h1, h2, hn1, hn2]

/-- The responses of the handler at the identifier `order-1`, for a service
that answers with the wrapped not-found error of the store. -/
theorem Handler_GetOrder_responses_witness :
    "order-1" ≠ "" ∧
    Handler.GetOrder
      (fun _ => .error (.wrapf "order retrieval error: " (.sentinel .ErrOrderNotFound) ""))
      "order-1" = (404, ⟨"error", "order not found", none⟩) :=
  ⟨by decide,
    (Handler_GetOrder_responses
      (fun _ => .error (.wrapf "order retrieval error: " (.sentinel .ErrOrderNotFound) ""))
      "order-1" (by decide)).1 _ rfl rfl⟩

/-- C17: `convertToOrderResponse` depends on the exposed fields only: two orders
that agree on identifier, track number, delivery, locale, delivery service,
creation date, the eight exposed payment fields and, item by item, on track
number, price, name, sale, size, total price and brand, have equal responses;
the response has as many items as the order, and its item at each position is
the view of the item of the order at that position. -/
theorem convertToOrderResponse_exposed_only (o1 o2 : Order)
    (hid : o1.OrderUID = o2.OrderUID) (htrack : o1.TrackNumber = o2.TrackNumber)
    (hdel : o1.Delivery = o2.Delivery) (hloc : o1.Locale = o2.Locale)
    (hsvc : o1.DeliveryService = o2.DeliveryService) (hdate : o1.DateCreated = o2.DateCreated)
    (hpay : o1.Payment.Currency = o2.Payment.Currency ∧
      o1.Payment.Provider = o2.Payment.Provider ∧ o1.Payment.Amount = o2.Payment.Amount ∧
      o1.Payment.PaymentDt = o2.Payment.PaymentDt ∧ o1.Payment.Bank = o2.Payment.Bank ∧
      o1.Payment.DeliveryCost = o2.Payment.DeliveryCost ∧
      o1.Payment.GoodsTotal = o2.Payment.GoodsTotal ∧
      o1.Payment.CustomFee = o2.Payment.CustomFee)
    (hitems : List.Forall₂ (fun a b : Item =>
      a.TrackNumber = b.TrackNumber ∧ a.Price = b.Price ∧ a.Name = b.Name ∧ a.Sale = b.Sale ∧
      a.Size = b.Size ∧ a.TotalPrice = b.TotalPrice ∧ a.Brand = b.Brand) o1.Items o2.Items) :
    Service.convertToOrderResponse o1 = Service.convertToOrderResponse o2 ∧
    (Service.convertToOrderResponse o1).Items.length = o1.Items.length ∧
    ∀ i : Nat, (Service.convertToOrderResponse o1).Items[i]? =
      (o1.Items[i]?).map (fun item =>
        ⟨item.TrackNumber, item.Price, item.Name, item.Sale, item.Size, item.TotalPrice,
          item.Brand⟩) := by
  refine ⟨?_, by simp [Service.convertToOrderResponse], ?_⟩
  · obtain ⟨p1, p2, p3, p4, p5, p6, p7, p8⟩ := hpay
    have hmap : o1.Items.map (fun item => (⟨item.TrackNumber, item.Price, item.Name, item.Sale,
        item.Size, item.TotalPrice, item.Brand⟩ : ItemResponse)) =
        o2.Items.map (fun item => (⟨item.TrackNumber, item.Price, item.Name, item.Sale,
        item.Size, item.TotalPrice, item.Brand⟩ : ItemResponse)) := by
      generalize o1.Items = l1 at hitems
      generalize o2.Items = l2 at hitems
      induction hitems with
      | nil => rfl
      | cons hab _ ih =>
        obtain ⟨a1, a2, a3, a4, a5, a6, a7⟩ := hab
        simp only [List.map_cons, ih, a1, a2, a3, a4, a5, a6, a7]
    unfold Service.convertToOrderResponse
    rw [hid, htrack, hdel, hloc, hsvc, hdate, p1, p2, p3, p4, p5, p6, p7, p8, hmap]
  · intro i
    simp [Service.convertToOrderResponse, List.getElem?_map]

/-- The view of the sample order and of the sample order with its hidden fields
changed is the same. -/
theorem convertToOrderResponse_exposed_only_witness :
    sampleOrder ≠ sampleOrderHidden ∧
    Service.convertToOrderResponse sampleOrder =
      Service.convertToOrderResponse sampleOrderHidden :=
  ⟨by decide,
    (convertToOrderResponse_exposed_only sampleOrder sampleOrderHidden rfl rfl rfl rfl rfl rfl
      ⟨rfl, rfl, rfl, rfl, rfl, rfl, rfl, rfl⟩
      (.cons ⟨rfl, rfl, rfl, rfl, rfl, rfl, rfl⟩
        (.cons ⟨rfl, rfl, rfl, rfl, rfl, rfl, rfl⟩ .nil))).1⟩

namespace Consumer

/-- A message that deserializes delivers its order. -/
theorem delivered_cons_ok (U : String → Except GoError Order) (v : String) (o : Order)
    (l : List Tick) (h : U v = .ok o) : delivered U (.message v :: l) = o :: delivered U l := by
  simp [delivered, List.filterMap_cons, Tick.order, h]

/-- A message that fails to deserialize delivers nothing. -/
theorem delivered_cons_bad (U : String → Except GoError Order) (v : String) (e : GoError)
    (l : List Tick) (h : U v = .error e) : delivered U (.message v :: l) = delivered U l := by
  simp [delivered, List.filterMap_cons, Tick.order, h]

/-- A turn that is no message delivers nothing. -/
theorem delivered_cons_other (U : String → Except GoError Order) (t : Tick) (l : List Tick)
    (h : t.isMessage = false) : delivered U (t :: l) = delivered U l := by
  cases t with
  | message v => simp [Tick.isMessage] at h
  | ctxDone c => simp [delivered, List.filterMap_cons, Tick.order]
  | failure e => simp [delivered, List.filterMap_cons, Tick.order]

/-- Delivery distributes over the concatenation of scripts. -/
theorem delivered_append (U : String → Except GoError Order) (a b : List Tick) :
    delivered U (a ++ b) = delivered U a ++ delivered U b := by
  simp [delivered, List.filterMap_append]

/-- The inner loop of `ConsumeOrdersBatch` from its head: either the script
ends while the batch is short, or a batch is handed over and the outer loop
goes on with the rest of the script. -/
theorem batchLoop_fill (U : String → Except GoError Order) (H : List Order → Option GoError)
    (n : Int) : ∀ (ticks : List Tick) (orders : List Order),
    ((∀ t ∈ ticks, t.isMessage = true) ∧ ((orders ++ delivered U ticks).length : Int) < n ∧
      batchLoop U H n ticks (some orders) = ⟨.running, [], orders ++ delivered U ticks⟩) ∨
    (∃ (shorts skip remaining : List Tick), ticks = shorts ++ (skip ++ remaining) ∧
      (∀ t ∈ shorts, t.isMessage = true) ∧
      batchLoop U H n ticks (some orders) =
        ⟨(batchLoop U H n remaining none).exit,
          (orders ++ delivered U shorts) :: (batchLoop U H n remaining none).batches,
          (batchLoop U H n remaining none).pending⟩ ∧
      delivered U skip = [] ∧
      ((n ≤ ((orders ++ delivered U shorts).length : Int) ∧ skip = [] ∧
          (shorts = [] ∨ ∃ (init : List Tick) (v : String) (o : Order),
            shorts = init ++ [.message v] ∧ U v = .ok o ∧
            ((orders ++ delivered U init).length : Int) < n)) ∨
        (((orders ++ delivered U shorts).length : Int) < n ∧
          ∃ (t : Tick) (rest : List Tick), skip ++ remaining = t :: rest ∧
            t.isMessage = false))) := by
  intro ticks
  induction ticks with
  | nil =>
    intro orders
    rw [batchLoop.eq_5]
    by_cases hlt : (orders.length : Int) < n
    · left
      refine ⟨by simp, by simpa [delivered] using hlt, by simp [hlt, delivered]⟩
    · right
      refine ⟨[], [], [], rfl, by simp, by simp [hlt, delivered], rfl, Or.inl ?_⟩
      exact ⟨by simpa [delivered] using not_lt.mp hlt, rfl, Or.inl rfl⟩
  | cons t rest ih =>
    intro orders
    by_cases hlt : (orders.length : Int) < n
    · cases t with
      | ctxDone c =>
        right
        refine ⟨[], [], .ctxDone c :: rest, rfl, by simp, ?_, rfl, Or.inr ?_⟩
        · rw [batchLoop.eq_6]; simp [delivered]
        · exact ⟨by simpa [delivered] using hlt, .ctxDone c, rest, rfl, rfl⟩
      | failure e =>
        right
        refine ⟨[], [.failure e], rest, rfl, by simp, ?_, ?_, Or.inr ?_⟩
        · rw [batchLoop.eq_7]; simp [hlt, delivered]
        · simp [delivered, Tick.order]
        · exact ⟨by simpa [delivered] using hlt, .failure e, rest, rfl, rfl⟩
      | message v =>
        cases hu : U v with
        | error e =>
          have heq : batchLoop U H n (.message v :: rest) (some orders) =
              batchLoop U H n rest (some orders) := by
            rw [batchLoop.eq_8]; simp [hlt, hu]
          rw [heq]
          rcases ih orders with ⟨hall, hlen, hrun⟩ | ⟨shorts, skip, remaining, hsplit, hall, hres,
            hskip, hclose⟩
          · left
            refine ⟨?_, ?_, ?_⟩
            · intro x hx
              rcases List.mem_cons.mp hx with h1 | h1
              · rw [h1]; rfl
              · exact hall x h1
            · rw [delivered_cons_bad U v e rest hu]; exact hlen
            · rw [delivered_cons_bad U v e rest hu]; exact hrun
          · right
            refine ⟨.message v :: shorts, skip, remaining, by rw [hsplit]; rfl, ?_, ?_, hskip, ?_⟩
            · intro x hx
              rcases List.mem_cons.mp hx with h1 | h1
              · rw [h1]; rfl
              · exact hall x h1
            · rw [delivered_cons_bad U v e shorts hu]; exact hres
            · rw [delivered_cons_bad U v e shorts hu]
              rcases hclose with ⟨hfull, hs, hlast⟩ | hfail
              · refine Or.inl ⟨hfull, hs, Or.inr ?_⟩
                rcases hlast with h0 | ⟨init, v1, o1, hsh, hu1, hl1⟩
                · exfalso
                  rw [h0] at hfull
                  simp [delivered] at hfull
                  omega
                · refine ⟨.message v :: init, v1, o1, by rw [hsh]; rfl, hu1, ?_⟩
                  rw [delivered_cons_bad U v e init hu]; exact hl1
              · exact Or.inr hfail
        | ok o =>
          have heq : batchLoop U H n (.message v :: rest) (some orders) =
              batchLoop U H n rest (some (orders ++ [o])) := by
            rw [batchLoop.eq_8]; simp [hlt, hu]
          rw [heq]
          have hd : ∀ l : List Tick, orders ++ delivered U (.message v :: l) =
              (orders ++ [o]) ++ delivered U l := by
            intro l
            rw [delivered_cons_ok U v o l hu]; simp
          rcases ih (orders ++ [o]) with ⟨hall, hlen, hrun⟩ | ⟨shorts, skip, remaining, hsplit,
            hall, hres, hskip, hclose⟩
          · left
            refine ⟨?_, ?_, ?_⟩
            · intro x hx
              rcases List.mem_cons.mp hx with h1 | h1
              · rw [h1]; rfl
              · exact hall x h1
            · rw [hd]; exact hlen
            · rw [hd]; exact hrun
          · right
            refine ⟨.message v :: shorts, skip, remaining, by rw [hsplit]; rfl, ?_, ?_, hskip, ?_⟩
            · intro x hx
              rcases List.mem_cons.mp hx with h1 | h1
              · rw [h1]; rfl
              · exact hall x h1
            · rw [hd]; exact hres
            · rw [hd]
              rcases hclose with ⟨hfull, hs, hlast⟩ | hfail
              · refine Or.inl ⟨hfull, hs, Or.inr ?_⟩
                rcases hlast with h0 | ⟨init, v1, o1, hsh, hu1, hl1⟩
                · refine ⟨[], v, o, by rw [h0]; rfl, hu, ?_⟩
                  simpa [delivered] using hlt
                · refine ⟨.message v :: init, v1, o1, by rw [hsh]; rfl, hu1, ?_⟩
                  rw [hd]; exact hl1
              · exact Or.inr hfail
    · right
      have hge : n ≤ (orders.length : Int) := not_lt.mp hlt
      refine ⟨[], [], t :: rest, rfl, by simp, ?_, rfl, Or.inl ?_⟩
      · cases t with
        | ctxDone c => rw [batchLoop.eq_6]; simp [delivered]
        | failure e => rw [batchLoop.eq_7]; simp [hlt, delivered]
        | message v => rw [batchLoop.eq_8]; simp [hlt, delivered]
      · exact ⟨by simpa [delivered] using hge, rfl, Or.inl rfl⟩

/-- A batch of a later part of a script is a batch of the script. -/
theorem IsBatch_lift (U : String → Except GoError Order) (n : Int) (front ticks : List Tick)
    (b : List Order) (h : IsBatch U n ticks b) : IsBatch U n (front ++ ticks) b := by
  obtain ⟨pre, v, o, shorts, post, hs, hu, hall, hb, hclose⟩ := h
  exact ⟨front ++ pre, v, o, shorts, post, by rw [hs, List.append_assoc], hu, hall, hb, hclose⟩

/-- The outer loop of `ConsumeOrdersBatch` for a batch size of at least one:
every batch handed over is a batch of the script in the sense of the
specification, and the batches, followed by the batch still being filled,
are the orders that a first part of the script delivers. -/
theorem batchLoop_top (U : String → Except GoError Order) (H : List Order → Option GoError)
    (n : Int) (hn : 1 ≤ n) : ∀ (m : Nat) (ticks : List Tick), ticks.length ≤ m →
    (∀ b ∈ (batchLoop U H n ticks none).batches, IsBatch U n ticks b) ∧
    ∃ k : Nat, (batchLoop U H n ticks none).batches.flatten ++
      (batchLoop U H n ticks none).pending = delivered U (ticks.take k) := by
  intro m
  induction m with
  | zero =>
    intro ticks hlen
    have : ticks = [] := List.length_eq_zero.mp (Nat.le_zero.mp hlen)
    subst this
    rw [batchLoop.eq_1]
    exact ⟨by simp, 0, by simp [delivered]⟩
  | succ m ih =>
    intro ticks hlen
    cases ticks with
    | nil =>
      rw [batchLoop.eq_1]
      exact ⟨by simp, 0, by simp [delivered]⟩
    | cons t rest =>
      have hrest : rest.length ≤ m := by
        simp only [List.length_cons] at hlen; omega
      have hskip : ∀ (hno : delivered U [t] = []),
          (∀ b ∈ (batchLoop U H n rest none).batches, IsBatch U n (t :: rest) b) ∧
          ∃ k : Nat, (batchLoop U H n rest none).batches.flatten ++
            (batchLoop U H n rest none).pending = delivered U ((t :: rest).take k) := by
        intro hno
        obtain ⟨h1, k, hk⟩ := ih rest hrest
        refine ⟨fun b hb => IsBatch_lift U n [t] rest b (h1 b hb), k + 1, ?_⟩
        rw [hk, List.take_succ_cons]
        have := delivered_append U [t] (rest.take k)
        rw [hno] at this
        simpa using this.symm
      cases t with
      | ctxDone c =>
        rw [batchLoop.eq_2]
        exact ⟨by simp, 0, by simp [delivered]⟩
      | failure e =>
        rw [batchLoop.eq_3]
        by_cases h1 : e = .sentinel .DeadlineExceeded
        · simp only [h1, if_true]
          rw [h1] at hskip
          exact hskip (by simp [delivered, Tick.order])
        · simp only [h1, if_false]
          by_cases h2 : e = .sentinel .Canceled
          · simp only [h2, if_true]
            exact ⟨by simp, 0, by simp [delivered]⟩
          · simp only [h2, if_false]
            exact hskip (by simp [delivered, Tick.order])
      | message v =>
        rw [batchLoop.eq_4]
        have hneg : ¬ n < 0 := by omega
        simp only [hneg, if_false]
        cases hu : U v with
        | error e =>
          simp only
          exact hskip (by simp [delivered, Tick.order, hu])
        | ok o =>
          simp only
          rcases batchLoop_fill U H n rest [o] with ⟨hall, hlt, hrun⟩ |
            ⟨shorts, skip, remaining, hsplit, hall, hres, hskp, hclose⟩
          · rw [hrun]
            refine ⟨by simp, (Tick.message v :: rest).length, ?_⟩
            rw [List.take_length, delivered_cons_ok U v o rest hu]
            simp
          · rw [hres]
            have hremlen : remaining.length ≤ m := by
              have : rest.length = shorts.length + (skip.length + remaining.length) := by
                rw [hsplit]; simp
              omega
            obtain ⟨h1, k, hk⟩ := ih remaining hremlen
            have hb0 : [o] ++ delivered U shorts = o :: delivered U shorts := rfl
            have hticks : Tick.message v :: rest =
                (Tick.message v :: (shorts ++ skip)) ++ remaining := by
              rw [hsplit]; simp
            refine ⟨?_, (Tick.message v :: (shorts ++ skip)).length + k, ?_⟩
            · intro b hb
              rcases List.mem_cons.mp hb with hb | hb
              · refine ⟨[], v, o, shorts, skip ++ remaining, by rw [hsplit]; rfl, hu, hall,
                  by rw [hb, hb0], ?_⟩
                rw [hb, hb0]
                rw [hb0] at hclose
                rcases hclose with ⟨hfull, _, hlast⟩ | ⟨hshort, hnext⟩
                · left
                  rcases hlast with h0 | ⟨init, v1, o1, hsh, hu1, hl1⟩
                  · subst h0
                    refine ⟨?_, ?_⟩
                    · simp only [delivered, List.filterMap_nil, List.length_singleton] at hfull ⊢
                      omega
                    · intro init t0 h0
                      exact absurd h0 (by simp)
                  · refine ⟨?_, ?_⟩
                    · have hl : (o :: delivered U shorts).length =
                          ([o] ++ delivered U init).length + 1 := by
                        rw [hsh, delivered_append, delivered_cons_ok U v1 o1 [] hu1]
                        simp [delivered]
                      rw [hl] at hfull ⊢
                      push_cast at hfull ⊢
                      omega
                    · intro init0 t0 h0
                      rw [hsh] at h0
                      have := List.append_inj_right' h0 rfl
                      have ht0 : t0 = .message v1 := by simpa using this.symm
                      rw [ht0]
                      simp [Tick.order, hu1]
                · exact Or.inr ⟨hshort, hnext⟩
              · rw [hticks]
                exact IsBatch_lift U n _ remaining b (h1 b hb)
            · rw [List.flatten_cons, List.append_assoc, hk, hticks, List.take_append,
                delivered_append, delivered_cons_ok U v o _ hu, delivered_append, hskp]
              simp

/-- Turns that deliver nothing and batches that hold what the turns before
them deliver may be put in front of an account of the outer loop: the loop
still runs with the handed-over batches covering a first part of the script
and the batch being filled covering the rest, or it returned at a cancelling
turn with the handed-over batches covering the turns before it. -/
theorem cover_lift (U : String → Except GoError Order) (n : Int) (pfx ticks : List Tick)
    (bs0 : List (List Order)) (R : BatchResult) (h0 : bs0.flatten = delivered U pfx)
    (h : (R.exit = .running ∧ ∃ (front tail : List Tick), ticks = front ++ tail ∧
          (∀ t ∈ tail, t.isMessage = true) ∧ R.batches.flatten = delivered U front ∧
          R.pending = delivered U tail ∧ (R.pending.length : Int) < n) ∨
      (R.pending = [] ∧ ∃ (front : List Tick) (t : Tick) (rest : List Tick),
          ticks = front ++ t :: rest ∧ R.batches.flatten = delivered U front ∧
          ((∃ c, t = .ctxDone c ∧ R.exit = .returned (some c.err)) ∨
            (t = .failure (.sentinel .Canceled) ∧
              R.exit = .returned (some (.sentinel .Canceled)))))) :
    (R.exit = .running ∧ ∃ (front tail : List Tick), pfx ++ ticks = front ++ tail ∧
        (∀ t ∈ tail, t.isMessage = true) ∧
        (bs0 ++ R.batches).flatten = delivered U front ∧
        R.pending = delivered U tail ∧ (R.pending.length : Int) < n) ∨
    (R.pending = [] ∧ ∃ (front : List Tick) (t : Tick) (rest : List Tick),
        pfx ++ ticks = front ++ t :: rest ∧
        (bs0 ++ R.batches).flatten = delivered U front ∧
        ((∃ c, t = .ctxDone c ∧ R.exit = .returned (some c.err)) ∨
          (t = .failure (.sentinel .Canceled) ∧
            R.exit = .returned (some (.sentinel .Canceled))))) := by
  rcases h with ⟨hrun, front, tail, hs, hall, hfl, hp, hlt⟩ | ⟨hp, front, t, rest, hs, hfl, hex⟩
  · left
    refine ⟨hrun, pfx ++ front, tail, by rw [hs, List.append_assoc], hall, ?_, hp, hlt⟩
    rw [List.flatten_append, h0, hfl, delivered_append]
  · right
    refine ⟨hp, pfx ++ front, t, rest, by rw [hs, List.append_assoc], ?_, hex⟩
    rw [List.flatten_append, h0, hfl, delivered_append]

/-- The outer loop of `ConsumeOrdersBatch` for a batch size of at least one
hands over every order it has read: at the end of the script it still runs,
the handed-over batches are the orders that a first part of the script
delivers and the batch being filled, shorter than the batch size, the orders
of the messages that make up the rest; or it returned at a done context or at
a blocking read that failed with `context.Canceled`, with that error, nothing
left over, the handed-over batches being the orders delivered before that
turn. -/
theorem batchLoop_cover (U : String → Except GoError Order) (H : List Order → Option GoError)
    (n : Int) (hn : 1 ≤ n) : ∀ (m : Nat) (ticks : List Tick), ticks.length ≤ m →
    ((batchLoop U H n ticks none).exit = .running ∧
      ∃ (front tail : List Tick), ticks = front ++ tail ∧
        (∀ t ∈ tail, t.isMessage = true) ∧
        (batchLoop U H n ticks none).batches.flatten = delivered U front ∧
        (batchLoop U H n ticks none).pending = delivered U tail ∧
        ((batchLoop U H n ticks none).pending.length : Int) < n) ∨
    ((batchLoop U H n ticks none).pending = [] ∧
      ∃ (front : List Tick) (t : Tick) (rest : List Tick), ticks = front ++ t :: rest ∧
        (batchLoop U H n ticks none).batches.flatten = delivered U front ∧
        ((∃ c, t = .ctxDone c ∧
            (batchLoop U H n ticks none).exit = .returned (some c.err)) ∨
          (t = .failure (.sentinel .Canceled) ∧
            (batchLoop U H n ticks none).exit = .returned (some (.sentinel .Canceled))))) := by
  intro m
  induction m with
  | zero =>
    intro ticks hlen
    have : ticks = [] := List.length_eq_zero.mp (Nat.le_zero.mp hlen)
    subst this
    rw [batchLoop.eq_1]
    left
    exact ⟨rfl, [], [], rfl, by simp, by simp [delivered], by simp [delivered], by simp; omega⟩
  | succ m ih =>
    intro ticks hlen
    cases ticks with
    | nil =>
      rw [batchLoop.eq_1]
      left
      exact ⟨rfl, [], [], rfl, by simp, by simp [delivered], by simp [delivered], by simp; omega⟩
    | cons t rest =>
      have hrest : rest.length ≤ m := by
        simp only [List.length_cons] at hlen; omega
      have hskip := fun (hno : delivered U [t] = []) =>
        cover_lift U n [t] rest [] (batchLoop U H n rest none) (by rw [hno]; rfl)
          (ih rest hrest)
      simp only [List.nil_append, List.singleton_append] at hskip
      cases t with
      | ctxDone c =>
        rw [batchLoop.eq_2]
        right
        exact ⟨rfl, [], .ctxDone c, rest, rfl, by simp [delivered], by simp⟩
      | failure e =>
        rw [batchLoop.eq_3]
        by_cases h1 : e = .sentinel .DeadlineExceeded
        · simp only [h1, if_true]
          rw [h1] at hskip
          exact hskip (by simp [delivered, Tick.order])
        · simp only [h1, if_false]
          by_cases h2 : e = .sentinel .Canceled
          · rw [if_pos h2]
            right
            exact ⟨rfl, [], .failure e, rest, rfl, by simp [delivered], by simp [h2]⟩
          · simp only [h2, if_false]
            exact hskip (by simp [delivered, Tick.order])
      | message v =>
        rw [batchLoop.eq_4]
        have hneg : ¬ n < 0 := by omega
        simp only [hneg, if_false]
        cases hu : U v with
        | error e =>
          simp only
          exact hskip (by simp [delivered, Tick.order, hu])
        | ok o =>
          simp only
          rcases batchLoop_fill U H n rest [o] with ⟨hall, hlt, hrun⟩ |
            ⟨shorts, skip, remaining, hsplit, hall, hres, hskp, _⟩
          · rw [hrun]
            left
            refine ⟨rfl, [], .message v :: rest, rfl, ?_, by simp [delivered], ?_, hlt⟩
            · intro x hx
              rcases List.mem_cons.mp hx with h1 | h1
              · rw [h1]; rfl
              · exact hall x h1
            · rw [delivered_cons_ok U v o rest hu]; rfl
          · rw [hres]
            have hremlen : remaining.length ≤ m := by
              have : rest.length = shorts.length + (skip.length + remaining.length) := by
                rw [hsplit]; simp
              omega
            have hticks : Tick.message v :: rest =
                (Tick.message v :: (shorts ++ skip)) ++ remaining := by
              rw [hsplit]; simp
            have hcov := cover_lift U n (Tick.message v :: (shorts ++ skip)) remaining
              [[o] ++ delivered U shorts] (batchLoop U H n remaining none)
              (by rw [delivered_cons_ok U v o _ hu, delivered_append, hskp]; simp)
              (ih remaining hremlen)
            rw [hticks]
            exact hcov

end Consumer

/-- C15, amended: for every batch size of at least one, every script, decoder
and handler, each batch that `ConsumeOrdersBatch` hands to the handler is
non-empty, holds at most `batchSize` orders, and is a batch of the script in
the sense of the specification (the order of one blocking read followed by the
orders of the consecutive successful short reads, closed as soon as it is full
or a short read fails); and every order read is handed over, once and in
stream order: either the loop still runs at the end of the script, the
handler invocations are exactly the orders delivered by a first part of the
script, and the rest of the script is the messages of the batch being filled,
which is shorter than `batchSize`; or the loop returned at a done context or
at a blocking read that failed with `context.Canceled`, returning that error,
no batch is left over, and the handler invocations are exactly the orders
delivered before that turn. -/
theorem ConsumeOrdersBatch_batches (unmarshal : String → Except GoError Order)
    (handler : List Order → Option GoError) (batchSize : Int) (ticks : List Tick)
    (hsize : 1 ≤ batchSize) :
    (∀ b ∈ (Consumer.ConsumeOrdersBatch unmarshal handler batchSize ticks).batches,
      b ≠ [] ∧ (b.length : Int) ≤ batchSize ∧ Consumer.IsBatch unmarshal batchSize ticks b) ∧
    (∃ k : Nat, (Consumer.ConsumeOrdersBatch unmarshal handler batchSize ticks).batches.flatten ++
      (Consumer.ConsumeOrdersBatch unmarshal handler batchSize ticks).pending =
        delivered unmarshal (ticks.take k)) ∧
    (((Consumer.ConsumeOrdersBatch unmarshal handler batchSize ticks).exit = .running ∧
      ∃ (front tail : List Tick), ticks = front ++ tail ∧
        (∀ t ∈ tail, t.isMessage = true) ∧
        (Consumer.ConsumeOrdersBatch unmarshal handler batchSize ticks).batches.flatten =
          delivered unmarshal front ∧
        (Consumer.ConsumeOrdersBatch unmarshal handler batchSize ticks).pending =
          delivered unmarshal tail ∧
        ((Consumer.ConsumeOrdersBatch unmarshal handler batchSize ticks).pending.length : Int) <
          batchSize) ∨
    ((Consumer.ConsumeOrdersBatch unmarshal handler batchSize ticks).pending = [] ∧
      ∃ (front : List Tick) (t : Tick) (rest : List Tick), ticks = front ++ t :: rest ∧
        (Consumer.ConsumeOrdersBatch unmarshal handler batchSize ticks).batches.flatten =
          delivered unmarshal front ∧
        ((∃ c, t = .ctxDone c ∧
            (Consumer.ConsumeOrdersBatch unmarshal handler batchSize ticks).exit =
              .returned (some c.err)) ∨
          (t = .failure (.sentinel .Canceled) ∧
            (Consumer.ConsumeOrdersBatch unmarshal handler batchSize ticks).exit =
              .returned (some (.sentinel .Canceled)))))) := by
  obtain ⟨h1, h2⟩ :=
    Consumer.batchLoop_top unmarshal handler batchSize hsize ticks.length ticks (le_refl _)
  refine ⟨fun b hb => ?_, h2,
    Consumer.batchLoop_cover unmarshal handler batchSize hsize ticks.length ticks (le_refl _)⟩
  have hbatch := h1 b hb
  obtain ⟨pre, v, o, shorts, post, _, _, _, hbo, hclose⟩ := hbatch
  refine ⟨by rw [hbo]; simp, ?_, h1 b hb⟩
  rcases hclose with ⟨hfull, _⟩ | ⟨hshort, _⟩
  · exact le_of_eq hfull
  · exact le_of_lt hshort

/-- The batches for batch size 2 over three good messages, a timeout and a
done context: the handler is invoked with the first two orders, then with the
third, and the loop returns the error of the context with nothing left
over. -/
theorem ConsumeOrdersBatch_batches_witness :
    (1 : Int) ≤ 2 ∧
    Consumer.ConsumeOrdersBatch sampleUnmarshal (fun _ => none) 2
      [.message "a", .message "b", .message "c", .failure (.sentinel .DeadlineExceeded),
        .ctxDone .canceled] =
      ⟨.returned (some (.sentinel .Canceled)),
        [[{ sampleOrder with OrderUID := "a" }, { sampleOrder with OrderUID := "b" }],
          [{ sampleOrder with OrderUID := "c" }]], []⟩ ∧
    (∀ b ∈ (Consumer.ConsumeOrdersBatch sampleUnmarshal (fun _ => none) 2
        [.message "a", .message "b", .message "c", .failure (.sentinel .DeadlineExceeded),
          .ctxDone .canceled]).batches,
      b ≠ [] ∧ (b.length : Int) ≤ 2 ∧
      Consumer.IsBatch sampleUnmarshal 2
        [.message "a", .message "b", .message "c", .failure (.sentinel .DeadlineExceeded),
          .ctxDone .canceled] b) ∧
    (Consumer.ConsumeOrdersBatch sampleUnmarshal (fun _ => none) 2
        [.message "a", .message "b", .message "c", .failure (.sentinel .DeadlineExceeded),
          .ctxDone .canceled]).batches.flatten =
      delivered sampleUnmarshal
        [.message "a", .message "b", .message "c", .failure (.sentinel .DeadlineExceeded)] := by
  have hrun : Consumer.ConsumeOrdersBatch sampleUnmarshal (fun _ => none) 2
      [.message "a", .message "b", .message "c", .failure (.sentinel .DeadlineExceeded),
        .ctxDone .canceled] =
      ⟨.returned (some (.sentinel .Canceled)),
        [[{ sampleOrder with OrderUID := "a" }, { sampleOrder with OrderUID := "b" }],
          [{ sampleOrder with OrderUID := "c" }]], []⟩ := by
    simp [Consumer.ConsumeOrdersBatch, Consumer.batchLoop, sampleUnmarshal, Cause.err]
  refine ⟨by decide, hrun,
    (ConsumeOrdersBatch_batches sampleUnmarshal (fun _ => none) 2
      [.message "a", .message "b", .message "c", .failure (.sentinel .DeadlineExceeded),
        .ctxDone .canceled] (by decide)).1, ?_⟩
  rw [hrun]
  decide

/-- C15 as stated fails at batch size 0: over one good message followed by a
done context, the handler is invoked with a batch of one order. -/
theorem ConsumeOrdersBatch_zero_size :
    (Consumer.ConsumeOrdersBatch sampleUnmarshal (fun _ => none) 0
      [.message "a", .ctxDone .canceled]).batches =
      [[{ sampleOrder with OrderUID := "a" }]] ∧
    ¬ (([{ sampleOrder with OrderUID := "a" }] : List Order).length : Int) ≤ 0 := by
  constructor
  · simp [Consumer.ConsumeOrdersBatch, Consumer.batchLoop, sampleUnmarshal]
  · decide

end L0
